import Mathlib

/-!
# Kappa: the SSH statement executor and the SKL parser

A shallow embedding of `ssh/executor.go` (package `ssh` of kappa) and of the
parts of the `skl` and `datamodel` packages that the executor consumes,
followed by a model of the `skl` lexer and parser, which are known only
through `skl/parser_test.go` and the specification.

`executor.go` is stored in a conflicted state (`Updated upstream` against
`Stashed changes`).  The embedding follows the `Stashed changes` side
throughout: it is the side that imports `strings`, guards the nil user in
`Execute`, and carries the full `handleCreateNamespace`,
`namespaceAlreadyExists` and `handleCreateRootNamespace`.

Modelling conventions

* Go `string` is Lean `String`; indices are counted in characters.  The only
  index computed by the executor is the position of a `.` (one byte in
  UTF-8), so the prefix cut at that index is the same in both countings.
* The collaborators (`datamodel.System`, `NamespaceStore`, `Namespace`) are
  interfaces whose implementations are outside the executor.  They are
  records of functions over an abstract type `N` of namespace objects.  A Go
  result pair `(value, error)` is an `Except Error value`: a nil error comes
  with a non-nil value.  Reads (`Namespaces`, `Get`, `HasPermission`) are
  functions of their arguments: one execution sees one store state, and on
  every path the only mutating call (`Create`, `CreateChild`) is the last
  store call made.
* Every call on the system, the store or a namespace object is recorded, in
  order, in `Run.calls`; the responses written through the `ResponseWriter`
  are recorded, in order, in `Run.w`.
* A runtime panic (method call on a nil user, slice bound out of range) stops
  the execution with `Run.panicked = true`.
* The lexer is a state (characters left, position, offset) with one step
  `Scan`; the parser is recursive descent over it with one token of
  lookahead.  A syntax error keeps the failing token, from which `found`,
  line and char are read.
-/

namespace Kappa

/-! ## datamodel -/

/-- Go `error` values returned by the datamodel collaborators: the sentinel
`datamodel.ErrNamespaceDoesNotExist`, or any other non-nil error. -/
inductive Error where
  | ErrNamespaceDoesNotExist
  | other (msg : String)
  deriving DecidableEq, Repr

/-- The `datamodel.User` interface, as far as the executor calls it. -/
structure User where
  IsAdmin : Bool
  Namespaces : List String
  Roles : String → List String

/-- The `datamodel.NamespaceStore` interface. -/
structure NamespaceStore (N : Type) where
  Get : String → Except Error N
  Create : String → Except Error N

/-- The `datamodel.Namespace` interface: the methods of a namespace object. -/
structure NamespaceMethods (N : Type) where
  HasPermission : N → String → String → Bool
  CreateChild : N → String → Except Error N

/-- The `datamodel.System` interface, together with the method table of the
namespace objects its store hands out. -/
structure System (N : Type) where
  Namespaces : Except Error (NamespaceStore N)
  namespaceMethods : NamespaceMethods N

/-! ## skl: the statement model -/

/-- Discriminant tags of the statements. -/
inductive NodeType where
  | UseNamespaceType
  | CreateNamespaceType
  | DropNamespaceType
  | ShowNamespacesType
  deriving DecidableEq, Repr

/-- The statement `&UseStatement{name: ...}`. -/
structure UseStatement where
  name : String
  deriving DecidableEq, Repr

/-- The statement `&CreateNamespaceStatement{name: ...}`. -/
structure CreateNamespaceStatement where
  name : String
  deriving DecidableEq, Repr

/-- The statement `&DropNamespaceStatement{name: ...}`. -/
structure DropNamespaceStatement where
  name : String
  deriving DecidableEq, Repr

/-- The statement `&ShowNamespacesStatement{}`. -/
structure ShowNamespacesStatement where
  deriving DecidableEq, Repr

/-- The `skl.Statement` interface: the closed set of statement variants. -/
inductive Statement where
  | Use (s : UseStatement)
  | CreateNamespace (s : CreateNamespaceStatement)
  | DropNamespace (s : DropNamespaceStatement)
  | ShowNamespaces (s : ShowNamespacesStatement)
  deriving DecidableEq, Repr

/-- Modelled from the spec: `Statement.NodeType()`, which is declared in
`skl` outside the files at hand; each variant exposes its own discriminant
tag. -/
def Statement.NodeType : Statement → NodeType
  | .Use _ => .UseNamespaceType
  | .CreateNamespace _ => .CreateNamespaceType
  | .DropNamespace _ => .DropNamespaceType
  | .ShowNamespaces _ => .ShowNamespacesType

/-- The type assertion `stmt.(*skl.UseStatement)`. -/
def Statement.asUseStatement : Statement → Option UseStatement
  | .Use s => some s
  | _ => none

/-- The type assertion `stmt.(*skl.CreateNamespaceStatement)`. -/
def Statement.asCreateNamespaceStatement : Statement → Option CreateNamespaceStatement
  | .CreateNamespace s => some s
  | _ => none

/-- The text of `reflect.TypeOf(stmt)`. -/
def Statement.TypeOf : Statement → String
  | .Use _ => "*skl.UseStatement"
  | .CreateNamespace _ => "*skl.CreateNamespaceStatement"
  | .DropNamespace _ => "*skl.DropNamespaceStatement"
  | .ShowNamespaces _ => "*skl.ShowNamespacesStatement"

/-- Modelled from the spec: `UseStatement.Namespace()`, the accessor for the
dot-delimited namespace path, declared in `skl` outside the files at hand. -/
def UseStatement.Namespace (s : UseStatement) : String := s.name

/-- Modelled from the spec: `CreateNamespaceStatement.Namespace()`, the
accessor for the dot-delimited namespace path, declared in `skl` outside the
files at hand. -/
def CreateNamespaceStatement.Namespace (s : CreateNamespaceStatement) : String := s.name

/-- Modelled from the spec: `CreateNamespaceStatement.IsRootNamespace()`,
declared in `skl` outside the files at hand; true iff the path has no
separator `.`. -/
def CreateNamespaceStatement.IsRootNamespace (s : CreateNamespaceStatement) : Bool :=
  !(s.name.data.contains '.')

/-- Modelled from the spec: `CreateNamespaceStatement.RequiredPermissions()`,
declared in `skl` outside the files at hand; the permission token needed to
create a namespace. -/
def CreateNamespaceStatement.RequiredPermissions (_s : CreateNamespaceStatement) : String :=
  "create.namespace"

/-! ## Go string primitives used by the executor -/

/-- Go `strings.LastIndex(s, ".")` on the characters of `s`: the index of
the last `.`, or `-1` when there is none. -/
def LastIndexDot : List Char → Int
  | [] => -1
  | c :: cs =>
    let r := LastIndexDot cs
    if 0 ≤ r then r + 1 else if c = '.' then 0 else -1

/-- Go `strings.LastIndex(s, ".")`. -/
def LastIndex (s : String) : Int := LastIndexDot s.data

/-- The Go slice expression `s[:index]`; `none` is the runtime panic raised
when the bound is out of range. -/
def sliceTo (s : String) (index : Int) : Option String :=
  if 0 ≤ index ∧ index ≤ (s.data.length : Int) then some ⟨s.data.take index.toNat⟩ else none

/-! ## ssh: responses, session, executor -/

/-- Status codes of the response contract. -/
inductive StatusCode where
  | OK
  | Unauthorized
  | NamespaceDoesNotExist
  | NamespaceAlreadyExists
  | InvalidStatementType
  | InternalServerError
  | CreateNamespaceError
  deriving DecidableEq, Repr

/-- One call of `w.Success(status, format, args...)` (`success = true`) or
`w.Fail(status, format, args...)` (`success = false`). -/
structure Response where
  success : Bool
  status : StatusCode
  format : String
  args : List String
  deriving DecidableEq, Repr

/-- What has been written through a `ResponseWriter`, oldest first. -/
abbrev ResponseWriter := List Response

/-- Session provides session and connection related information. -/
structure Session where
  namespace_ : String
  user : Option User

/-- The terminal wrapper; only its prompt is touched by the executor. -/
structure Terminal where
  prompt : String
  deriving DecidableEq, Repr

/-- Executor executes successfully parsed queries. -/
structure Executor (N : Type) where
  session : Session
  terminal : Terminal
  system : System N

/-- A call made on the system, the namespace store or a namespace object. -/
inductive Call (N : Type) where
  | Namespaces
  | Get (name : String)
  | Create (name : String)
  | HasPermission (ns : N) (role : String) (permission : String)
  | CreateChild (parent : N) (name : String)
  deriving DecidableEq, Repr

/-- The state of one execution: the executor, the responses written so far,
the collaborator calls made so far, and whether the execution panicked. -/
structure Run (N : Type) where
  e : Executor N
  w : ResponseWriter
  calls : List (Call N)
  panicked : Bool

variable {N : Type}

/-- The call `w.Fail(status, format, args...)`. -/
def Run.Fail (r : Run N) (status : StatusCode) (format : String) (args : List String) : Run N :=
  { r with w := r.w ++ [⟨false, status, format, args⟩] }

/-- The call `w.Success(status, format, args...)`. -/
def Run.Success (r : Run N) (status : StatusCode) (format : String) (args : List String) : Run N :=
  { r with w := r.w ++ [⟨true, status, format, args⟩] }

/-- Record a collaborator call. -/
def Run.call (r : Run N) (c : Call N) : Run N :=
  { r with calls := r.calls ++ [c] }

/-- A runtime panic. -/
def Run.panic (r : Run N) : Run N :=
  { r with panicked := true }

/-- The two statements `e.session.namespace = name` and
`e.terminal.SetPrompt(fmt.Sprintf("kappa: %s> ", name))`. -/
def Run.selectNamespace (r : Run N) (name : String) : Run N :=
  { r with e := { r.e with session := { r.e.session with namespace_ := name },
                           terminal := ⟨"kappa: " ++ name ++ "> "⟩ } }

/-- The loop `for _, namespace := range user.Namespaces()` of
`handleUseStatement`, with the `w.Fail(Unauthorized, "")` that follows it. -/
def useScan (r : Run N) (name : String) : List String → Run N
  | [] => r.Fail .Unauthorized "" []
  | namespace_ :: rest =>
    if namespace_ = name then (r.selectNamespace name).Success .OK "" []
    else useScan r name rest

/-- The method `handleUseStatement` of the executor. -/
def handleUseStatement (r : Run N) (stmt : Statement) : Run N :=
  match stmt.asUseStatement with
  | none => r.Fail .InvalidStatementType "expected *UseStatement, got %s instead" [stmt.TypeOf]
  | some use =>
    -- Get user from session
    let user := r.e.session.user
    -- Get namespace store
    let r := r.call .Namespaces
    match r.e.system.Namespaces with
    | .error _ => r.Fail .InternalServerError "could not access namespace data" []
    | .ok namespaceStore =>
      -- Get namespace
      let name := use.Namespace
      -- Verify namespace existence
      let r := r.call (.Get name)
      match namespaceStore.Get name with
      | .error .ErrNamespaceDoesNotExist => r.Fail .NamespaceDoesNotExist name []
      | .error (.other _) => r.Fail .InternalServerError "could not access namespace data" []
      | .ok _ =>
        match user with
        | none => r.panic
        | some user =>
          -- If the user is an admin, grant access
          if user.IsAdmin then (r.selectNamespace name).Success .OK "" []
          else useScan r name user.Namespaces

/-- The method `namespaceAlreadyExists`: `err == nil` for the error of
`store.Get(namespace)`. -/
def namespaceAlreadyExists (namespace_ : String) (store : NamespaceStore N) : Bool :=
  match store.Get namespace_ with
  | .ok _ => true
  | .error _ => false

/-- The method `handleCreateRootNamespace`: only the admin account can create
a root namespace. -/
def handleCreateRootNamespace (r : Run N) (stmt : CreateNamespaceStatement)
    (store : NamespaceStore N) : Run N :=
  -- Get namespace
  let name := stmt.Namespace
  -- Verify namespace existance
  let r := r.call (.Get name)
  match store.Get name with
  | .ok _ => r.Success .NamespaceAlreadyExists name []
  | .error _ =>
    -- Get session user
    match r.e.session.user with
    | none => r.panic
    | some user =>
      if user.IsAdmin then
        -- Create new namespace
        let r := r.call (.Create name)
        match store.Create name with
        | .error _ => r.Fail .CreateNamespaceError "could not create namespace '%s'" [name]
        | .ok _ => r.Success .OK "namespace created" []
      else
        -- Otherwise fail creation
        r.Fail .Unauthorized "root namespaces can only be created by the admin account" []

/-- The loop `for _, role := range roles` of `handleCreateNamespace`: the
value of `access` after the loop, started from `access`. -/
def scanRoles (m : NamespaceMethods N) (ns : N) (permission : String) (access : Bool)
    (roles : List String) : Bool :=
  roles.foldl (fun access role => if m.HasPermission ns role permission then true else access)
    access

/-- The tail of `handleCreateNamespace`, from `if parent == nil` on: fetch
the parent when it was not memoized, then create the child. -/
def createChildOf (r : Run N) (store : NamespaceStore N) (parent : Option N)
    (parentNamespace namespace_ : String) : Run N :=
  let create (r : Run N) (parent : N) : Run N :=
    let r := r.call (.CreateChild parent namespace_)
    match r.e.system.namespaceMethods.CreateChild parent namespace_ with
    | .error _ => r.Fail .CreateNamespaceError "cannot create namespace '%s'" [namespace_]
    | .ok _ => r.Success .OK "namespace created" []
  match parent with
  | some parent => create r parent
  | none =>
    -- Verify namespace existance
    let r := r.call (.Get parentNamespace)
    match store.Get parentNamespace with
    | .error _ => r.Fail .InternalServerError "parent namespace does not exist" []
    | .ok parent => create r parent

/-- The method `handleCreateNamespace` of the executor. -/
def handleCreateNamespace (r : Run N) (stmt : Statement) : Run N :=
  match stmt.asCreateNamespaceStatement with
  | none =>
    r.Fail .InvalidStatementType "expected *CreateNamespaceStatement, got %s instead"
      [stmt.TypeOf]
  | some createStatement =>
    -- Get namespace store
    let r := r.call .Namespaces
    match r.e.system.Namespaces with
    | .error _ => r.Fail .InternalServerError "could not access namespace data" []
    | .ok namespaceStore =>
      -- Get session user
      let user := r.e.session.user
      -- Get namespace
      let namespace_ := createStatement.Namespace
      -- If err == nil, the namespace already existed
      let r := r.call (.Get namespace_)
      if namespaceAlreadyExists namespace_ namespaceStore then
        r.Success .NamespaceAlreadyExists namespace_ []
      -- If root namespace
      else if createStatement.IsRootNamespace then
        handleCreateRootNamespace r createStatement namespaceStore
      else
        match user with
        | none => r.panic
        | some user =>
          -- Admin user is granted access by default
          let access := user.IsAdmin
          -- Get parent namespace
          let index := LastIndex namespace_
          match sliceTo namespace_ index with
          | none => r.panic
          | some parentNamespace =>
            -- If the user is not an admin check their permissions for the parent namespace
            if !access then
              -- Get user roles for parent namespace
              let roles := user.Roles parentNamespace
              -- Determine if parent namespace exists
              let r := r.call (.Get parentNamespace)
              match namespaceStore.Get parentNamespace with
              | .error .ErrNamespaceDoesNotExist =>
                r.Fail .NamespaceDoesNotExist parentNamespace []
              | .error (.other _) => r.Fail .InternalServerError "" []
              | .ok ns =>
                -- Scan roles for permissions
                let permission := createStatement.RequiredPermissions
                let r : Run N :=
                  { r with calls := r.calls ++ roles.map (fun role => .HasPermission ns role permission) }
                let access := scanRoles r.e.system.namespaceMethods ns permission access roles
                -- Return error if not authorized
                if !access then
                  r.Fail .Unauthorized "cannot create namespace '%s'" [namespace_]
                else
                  createChildOf r namespaceStore (some ns) parentNamespace namespace_
            else
              createChildOf r namespaceStore none parentNamespace namespace_

/-- Execute processes each statement. -/
def Execute (e : Executor N) (w : ResponseWriter) (stmt : Statement) : Run N :=
  let r : Run N := ⟨e, w, [], false⟩
  -- Verify session has a user
  match e.session.user with
  | none => r.Fail .InternalServerError "could not determine session user" []
  | some _ =>
    match stmt.NodeType with
    | .UseNamespaceType => handleUseStatement r stmt
    | .CreateNamespaceType => handleCreateNamespace r stmt
    | _ => r

/-! ## Specification vocabulary -/

/-- A call that mutates the store: `store.Create` or `Namespace.CreateChild`. -/
def Call.isMutation : Call N → Bool
  | .Create _ => true
  | .CreateChild _ _ => true
  | _ => false

/-! ## Example collaborators

A store that holds a given list of names and creates whatever it is asked
to, a namespace object that grants `create.namespace` on `acme` to the role
`creator`, an admin and an ordinary user. -/

def exampleStore (names : List String) : NamespaceStore String :=
  { Get := fun n => if n ∈ names then .ok n else .error .ErrNamespaceDoesNotExist
    Create := fun n => .ok n }

def exampleSystem (names : List String) : System String :=
  { Namespaces := .ok (exampleStore names)
    namespaceMethods :=
      { HasPermission := fun ns role permission =>
          ns == "acme" && role == "creator" && permission == "create.namespace"
        CreateChild := fun _ n => .ok n } }

def exampleAdmin : User := ⟨true, [], fun _ => []⟩

def exampleUser : User :=
  ⟨false, ["acme"], fun n => if n = "acme" then ["reader", "creator"] else []⟩

def exampleExecutor (user : Option User) (names : List String) : Executor String :=
  ⟨⟨"", user⟩, ⟨"kappa> "⟩, exampleSystem names⟩

/-- A store whose lookups fail with an error that is not
`ErrNamespaceDoesNotExist` (the backend cannot be reached), and that accepts
every creation. -/
def unreachableStore : NamespaceStore String :=
  { Get := fun _ => .error (.other "connection refused")
    Create := fun n => .ok n }

/-- An executor for `user` over `unreachableStore`. -/
def unreachableExecutor (user : Option User) : Executor String :=
  ⟨⟨"", user⟩, ⟨"kappa> "⟩,
   { Namespaces := .ok unreachableStore
     namespaceMethods := (exampleSystem []).namespaceMethods }⟩

/-! ## The store as a set of names -/

/-- A system whose store is the set `names`: `Get` finds exactly the names of
the set, `Create` and `CreateChild` always succeed, and `grants` decides
`HasPermission`. -/
def setSystem (names : List String) (grants : String → String → String → Bool) :
    System String :=
  { Namespaces := .ok (exampleStore names)
    namespaceMethods :=
      { HasPermission := grants
        CreateChild := fun _ n => .ok n } }

/-- An executor for `session` over `setSystem names grants`. -/
def setExecutor (session : Session) (names : List String)
    (grants : String → String → String → Bool) : Executor String :=
  ⟨session, ⟨"kappa> "⟩, setSystem names grants⟩

/-- The names that the calls `Create(name)` and `CreateChild(name)` of a call
log insert into the store. -/
def insertedNames (calls : List (Call String)) : List String :=
  calls.filterMap fun call =>
    match call with
    | .Create n => some n
    | .CreateChild _ n => some n
    | _ => none

/-- The set of names of the store after the calls of a call log. -/
def storeAfter (names : List String) (calls : List (Call String)) : List String :=
  names ++ insertedNames calls

/-- Every non-root name of the set has its parent name, the name cut before
its last `.`, in the set. -/
def parentClosed (names : List String) : Prop :=
  ∀ n ∈ names, ∀ parent, sliceTo n (LastIndex n) = some parent → parent ∈ names

/-! ## skl: lexer and parser

The lexer and the parser of `skl` are not among the source files; only
`skl/parser_test.go` is.  They are modelled from the specification (sections
3, 4.1 and 4.2), and every case of `parser_test.go` is reproduced by the
model (`ParseStatement_test_table`). -/

/-- Modelled from the spec: the keywords of the lexer, which is not among the
source files; case-sensitive, uppercase. -/
inductive Keyword where
  | USE
  | CREATE
  | NAMESPACE
  | NAMESPACES
  | SHOW
  | DROP
  deriving DecidableEq, Repr

/-- Modelled from the spec: the kinds of token of the lexer, which is not
among the source files: keyword, identifier, punctuation `.`, whitespace, end
of input, and an unrecognised character. -/
inductive TokenKind where
  | keyword (k : Keyword)
  | identifier
  | dot
  | whitespace
  | eof
  | illegal
  deriving DecidableEq, Repr

/-- Modelled from the spec: a position of the lexer, which is not among the
source files; line and char are 1-based, char counts from the start of the
current line. -/
structure Pos where
  line : Nat
  char : Nat
  deriving DecidableEq, Repr

/-- Modelled from the spec: a token of the lexer, which is not among the
source files: kind, literal text and position.  `offset`, the number of input
characters before the token, is carried along to state properties; the
parser never reads it. -/
structure Token where
  kind : TokenKind
  lit : String
  pos : Pos
  offset : Nat
  deriving DecidableEq, Repr

/-- Modelled from the spec: the keyword spelled by a literal, for the lexer,
which is not among the source files. -/
def Lookup (lit : String) : Option Keyword :=
  if lit = "USE" then some .USE
  else if lit = "CREATE" then some .CREATE
  else if lit = "NAMESPACE" then some .NAMESPACE
  else if lit = "NAMESPACES" then some .NAMESPACES
  else if lit = "SHOW" then some .SHOW
  else if lit = "DROP" then some .DROP
  else none

/-- Modelled from the spec: the whitespace characters of the lexer, which is
not among the source files: space, tab and newline. -/
def isWhitespace (c : Char) : Bool := c = ' ' || c = '\t' || c = '\n'

/-- Modelled from the spec: the characters of identifiers for the lexer,
which is not among the source files: alphanumeric characters and underscore. -/
def isIdentChar (c : Char) : Bool := c.isAlphanum || c = '_'

/-- Modelled from the spec: the position after reading one character, for
the lexer, which is not among the source files. -/
def Pos.advance (p : Pos) (c : Char) : Pos :=
  if c = '\n' then ⟨p.line + 1, 1⟩ else ⟨p.line, p.char + 1⟩

/-- Modelled from the spec: the state of the lexer, which is not among the
source files: the characters not yet read, the position of the next one, and
the number of characters read. -/
structure Scanner where
  rest : List Char
  pos : Pos
  offset : Nat
  deriving DecidableEq, Repr

/-- Modelled from the spec: the lexer over an input text, which is not
among the source files; it starts at line 1, char 1. -/
def NewScanner (input : String) : Scanner := ⟨input.data, ⟨1, 1⟩, 0⟩

/-- Modelled from the spec: `Scan`, one step of the lexer, which is not
among the source files.  It returns the next token, tagged with the position
of its first character, and the state after it.  A whitespace token is a
maximal run of whitespace, an identifier or keyword a maximal run of
identifier characters.  A whitespace run that reaches the end of the input
also consumes the end-of-input read, so the end-of-input token after it is
reported one char further: this is what the positions required by
`parser_test.go` and by section 8 of the specification show (`USE ` is
reported at char 6, `USE acme.example.` at char 18). -/
def Scanner.Scan (s : Scanner) : Token × Scanner :=
  match s.rest with
  | [] => (⟨.eof, "", s.pos, s.offset⟩, s)
  | c :: cs =>
    if isWhitespace c then
      let run := (c :: cs).takeWhile isWhitespace
      let rest := (c :: cs).dropWhile isWhitespace
      let pos := run.foldl Pos.advance s.pos
      let pos := if rest.isEmpty then ⟨pos.line, pos.char + 1⟩ else pos
      (⟨.whitespace, ⟨run⟩, s.pos, s.offset⟩, ⟨rest, pos, s.offset + run.length⟩)
    else if isIdentChar c then
      let run := (c :: cs).takeWhile isIdentChar
      let rest := (c :: cs).dropWhile isIdentChar
      let kind := match Lookup ⟨run⟩ with
        | some k => TokenKind.keyword k
        | none => TokenKind.identifier
      (⟨kind, ⟨run⟩, s.pos, s.offset⟩,
       ⟨rest, ⟨s.pos.line, s.pos.char + run.length⟩, s.offset + run.length⟩)
    else if c = '.' then
      (⟨.dot, ".", s.pos, s.offset⟩, ⟨cs, ⟨s.pos.line, s.pos.char + 1⟩, s.offset + 1⟩)
    else
      (⟨.illegal, ⟨[c]⟩, s.pos, s.offset⟩, ⟨cs, ⟨s.pos.line, s.pos.char + 1⟩, s.offset + 1⟩)

/-- Modelled from the spec: the syntax error of the parser, which is not
among the source files: the failing token and the expectation, one of a
keyword (or the list of leading keywords), `namespace` or `identifier`. -/
structure ParseError where
  tok : Token
  expected : String
  deriving DecidableEq, Repr

/-- Modelled from the spec: the `found` part of a syntax error, for the
parser, which is not among the source files: `EOF` when the input is
exhausted, else the literal token text; a whitespace token is shown as `WS`,
as `parser_test.go` requires (`found WS, expected identifier`). -/
def tokstr (t : Token) : String :=
  match t.kind with
  | .eof => "EOF"
  | .whitespace => "WS"
  | _ => t.lit

/-- The `found` part of a syntax error. -/
def ParseError.found (e : ParseError) : String := tokstr e.tok

/-- The line of a syntax error. -/
def ParseError.line (e : ParseError) : Nat := e.tok.pos.line

/-- The char of a syntax error. -/
def ParseError.char (e : ParseError) : Nat := e.tok.pos.char

/-- Modelled from the spec: the text of a syntax error of the parser, which
is not among the source files:
`found <found>, expected <expected> at line <L>, char <C>`. -/
def ParseError.Error (e : ParseError) : String :=
  "found " ++ e.found ++ ", expected " ++ e.expected ++ " at line " ++ toString e.line
    ++ ", char " ++ toString e.char

/-- Modelled from the spec: the next token that is not whitespace, for the
parser, which is not among the source files: one whitespace token, if
present, is passed over (grammar: `"USE" WS namespace`). -/
def Scanner.scanIgnoreWhitespace (s : Scanner) : Token × Scanner :=
  let (t, s1) := s.Scan
  if t.kind = .whitespace then s1.Scan else (t, s1)

/-- Modelled from the spec: the repetition `("." identifier)*` of the
grammar rule `namespace`, for the parser, which is not among the source
files.  One token of lookahead decides whether the path goes on; a `.` that
is not followed by an identifier is a syntax error expecting `identifier`.
`fuel` bounds the number of repetitions by the number of characters left:
each repetition reads at least two, so at `0` no character is left and the
path is complete. -/
def parseNamespaceTail : Nat → Scanner → String → Except ParseError String
  | 0, _, acc => .ok acc
  | fuel + 1, s, acc =>
    let (t, s1) := s.Scan
    match t.kind with
    | .dot =>
      let (t2, s2) := s1.Scan
      match t2.kind with
      | .identifier => parseNamespaceTail fuel s2 (acc ++ "." ++ t2.lit)
      | _ => .error ⟨t2, "identifier"⟩
    | _ => .ok acc

/-- Modelled from the spec: the grammar rule
`namespace := identifier ("." identifier)*`, for the parser, which is not
among the source files; a first token that is not an identifier is a syntax
error expecting `namespace`. -/
def parseNamespace (s : Scanner) : Except ParseError String :=
  let (t, s1) := s.scanIgnoreWhitespace
  match t.kind with
  | .identifier => parseNamespaceTail s1.rest.length s1 t.lit
  | _ => .error ⟨t, "namespace"⟩

/-- Modelled from the spec: the part `WS "NAMESPACE" WS namespace` of the
grammar rules `create_ns_stmt` and `drop_ns_stmt`, for the parser, which is
not among the source files. -/
def parseNamespaceKeyword (s : Scanner) : Except ParseError String :=
  let (t, s1) := s.scanIgnoreWhitespace
  match t.kind with
  | .keyword .NAMESPACE => parseNamespace s1
  | _ => .error ⟨t, "NAMESPACE"⟩

/-- Modelled from the spec: `ParseStatement`, the single entry point of the
parser, which is not among the source files: it parses one statement of the
grammar of section 4.2 and fails on the first mismatch. -/
def ParseStatement (input : String) : Except ParseError Statement :=
  let (t, s1) := (NewScanner input).Scan
  match t.kind with
  | .keyword .USE =>
    match parseNamespace s1 with
    | .ok ns => .ok (.Use ⟨ns⟩)
    | .error e => .error e
  | .keyword .CREATE =>
    match parseNamespaceKeyword s1 with
    | .ok ns => .ok (.CreateNamespace ⟨ns⟩)
    | .error e => .error e
  | .keyword .DROP =>
    match parseNamespaceKeyword s1 with
    | .ok ns => .ok (.DropNamespace ⟨ns⟩)
    | .error e => .error e
  | .keyword .SHOW =>
    let (t2, _) := s1.scanIgnoreWhitespace
    match t2.kind with
    | .keyword .NAMESPACES => .ok (.ShowNamespaces ⟨⟩)
    | _ => .error ⟨t2, "NAMESPACES"⟩
  | _ => .error ⟨t, "USE, CREATE, SHOW, DROP"⟩

/-- The function `errstring` of `parser_test.go`: the text of the error, or
the empty text when there is none. -/
def errstring (r : Except ParseError Statement) : String :=
  match r with
  | .error e => e.Error
  | .ok _ => ""

/-- Modelled from the spec: an identifier of the grammar, for the lexer,
which is not among the source files: a non-empty run of identifier characters
that is not a keyword. -/
def isIdentifier (seg : String) : Bool :=
  !seg.data.isEmpty && seg.data.all isIdentChar && (Lookup seg).isNone

/-- The namespace path `first ("." seg)*` spelled by a first identifier and
the identifiers that follow it. -/
def namespacePath (first : String) (rest : List String) : String :=
  rest.foldl (fun acc seg => acc ++ "." ++ seg) first

/-- The characters `("." seg)*` that follow the first identifier of a
namespace path. -/
def tailChars : List String → List Char
  | [] => []
  | seg :: segs => '.' :: seg.data ++ tailChars segs

/-- The kind of the token spelled by a run of identifier characters. -/
def wordKind (lit : String) : TokenKind :=
  match Lookup lit with
  | some k => .keyword k
  | none => .identifier

/-- The predicate `p` fails on the first character of `tail`, if there is
one: a run of `p` characters stops there. -/
def stopsAt (p : Char → Bool) (tail : List Char) : Prop :=
  ∀ c ∈ tail.head?, p c = false

/-- The states of the lexer reached from the start of `input` by repeated
`Scan`. -/
inductive Reachable (input : String) : Scanner → Prop where
  | start : Reachable input (NewScanner input)
  | scan (s : Scanner) : Reachable input s → Reachable input s.Scan.2

/-- The last character of the text is whitespace. -/
def endsWithWhitespace (cs : List Char) : Bool :=
  match cs.getLast? with
  | some c => isWhitespace c
  | none => false

/-! ## Lemmas on the string primitives and on the role scan -/

theorem LastIndexDot_ge (cs : List Char) : -1 ≤ LastIndexDot cs := by
  induction cs with
  | nil => simp [LastIndexDot]
  | cons c cs ih =>
    simp only [LastIndexDot]
    split_ifs <;> omega

theorem LastIndexDot_lt (cs : List Char) : LastIndexDot cs < (cs.length : Int) := by
  induction cs with
  | nil => simp [LastIndexDot]
  | cons c cs ih =>
    simp only [LastIndexDot, List.length_cons, Nat.cast_add, Nat.cast_one]
    split_ifs <;> omega

theorem LastIndexDot_nonneg_iff (cs : List Char) : 0 ≤ LastIndexDot cs ↔ '.' ∈ cs := by
  induction cs with
  | nil => simp [LastIndexDot]
  | cons c cs ih =>
    have hge := LastIndexDot_ge cs
    simp only [LastIndexDot, List.mem_cons]
    by_cases h : 0 ≤ LastIndexDot cs
    · simp only [h, if_true]
      constructor
      · intro _; exact Or.inr (ih.mp h)
      · intro _; omega
    · simp only [h, if_false]
      by_cases hc : c = '.'
      · simp [hc]
      · have : ¬ '.' ∈ cs := fun hm => h (ih.mpr hm)
        simp [hc, this, Ne.symm hc]

theorem LastIndexDot_append (p seg : List Char) (hseg : '.' ∉ seg) :
    LastIndexDot (p ++ '.' :: seg) = (p.length : Int) := by
  induction p with
  | nil =>
    have h : ¬ 0 ≤ LastIndexDot seg := fun h => hseg ((LastIndexDot_nonneg_iff seg).mp h)
    simp [LastIndexDot, h]
  | cons a p ih =>
    have hstep : LastIndexDot (a :: (p ++ '.' :: seg))
        = if 0 ≤ LastIndexDot (p ++ '.' :: seg) then LastIndexDot (p ++ '.' :: seg) + 1
          else if a = '.' then 0 else -1 := rfl
    rw [List.cons_append, hstep, ih, if_pos (Int.ofNat_nonneg _)]
    simp

theorem sliceTo_LastIndex_of_split (name parent seg : String)
    (hname : name = parent ++ "." ++ seg) (hseg : '.' ∉ seg.data) :
    sliceTo name (LastIndex name) = some parent := by
  have hdata : name.data = parent.data ++ '.' :: seg.data := by
    subst hname; simp [String.data_append]
  have hidx : LastIndex name = (parent.data.length : Int) := by
    unfold LastIndex; rw [hdata]; exact LastIndexDot_append _ _ hseg
  unfold sliceTo
  rw [hidx, hdata]
  have hle : (parent.data.length : Int) ≤ ((parent.data ++ '.' :: seg.data).length : Int) := by
    simp only [List.length_append, List.length_cons, Nat.cast_add, Nat.cast_one]
    omega
  rw [if_pos ⟨Int.ofNat_nonneg _, hle⟩]
  simp

theorem IsRootNamespace_of_split (c : CreateNamespaceStatement) (parent seg : String)
    (hname : c.Namespace = parent ++ "." ++ seg) : c.IsRootNamespace = false := by
  have hdata : c.name.data = parent.data ++ '.' :: seg.data := by
    have : c.name = parent ++ "." ++ seg := hname
    rw [this]; simp [String.data_append]
  simp [CreateNamespaceStatement.IsRootNamespace, hdata]

theorem sliceTo_LastIndex_of_not_root (c : CreateNamespaceStatement)
    (h : c.IsRootNamespace = false) :
    ∃ parent, sliceTo c.Namespace (LastIndex c.Namespace) = some parent := by
  have hmem : '.' ∈ c.name.data := by
    simpa [CreateNamespaceStatement.IsRootNamespace] using h
  have h0 := (LastIndexDot_nonneg_iff c.name.data).mpr hmem
  have h1 := LastIndexDot_lt c.name.data
  refine ⟨⟨c.name.data.take (LastIndexDot c.name.data).toNat⟩, ?_⟩
  simp only [sliceTo, LastIndex, CreateNamespaceStatement.Namespace]
  rw [if_pos ⟨h0, le_of_lt h1⟩]

theorem scanRoles_eq (m : NamespaceMethods N) (ns : N) (permission : String) (access : Bool)
    (roles : List String) :
    scanRoles m ns permission access roles
      = (access || roles.any (fun role => m.HasPermission ns role permission)) := by
  unfold scanRoles
  induction roles generalizing access with
  | nil => simp
  | cons role roles ih =>
    simp only [List.foldl_cons, List.any_cons, ih]
    cases access <;> cases m.HasPermission ns role permission <;> simp


theorem useScan_of_mem (r : Run N) (name : String) (namespaces : List String)
    (h : name ∈ namespaces) :
    useScan r name namespaces = (r.selectNamespace name).Success .OK "" [] := by
  induction namespaces with
  | nil => simp at h
  | cons n rest ih =>
    by_cases hn : n = name
    · simp [useScan, hn]
    · have hrest : name ∈ rest := by
        rcases List.mem_cons.mp h with h | h
        · exact absurd h.symm hn
        · exact h
      simp [useScan, hn, ih hrest]

theorem useScan_of_not_mem (r : Run N) (name : String) (namespaces : List String)
    (h : name ∉ namespaces) :
    useScan r name namespaces = r.Fail .Unauthorized "" [] := by
  induction namespaces with
  | nil => simp [useScan]
  | cons n rest ih =>
    have hn : ¬ n = name := fun hn => h (by simp [hn])
    have hrest : name ∉ rest := fun hm => h (List.mem_cons_of_mem _ hm)
    simp [useScan, hn, ih hrest]

theorem useScan_writes_one (r : Run N) (name : String) (namespaces : List String) :
    ∃ resp, (useScan r name namespaces).w = r.w ++ [resp]
      ∧ (useScan r name namespaces).panicked = r.panicked := by
  by_cases h : name ∈ namespaces
  · rw [useScan_of_mem r name namespaces h]
    exact ⟨_, rfl, rfl⟩
  · rw [useScan_of_not_mem r name namespaces h]
    exact ⟨_, rfl, rfl⟩

theorem handleUseStatement_writes_one (r : Run N) (stmt : Statement) (user : User)
    (huser : r.e.session.user = some user) :
    ∃ resp, (handleUseStatement r stmt).w = r.w ++ [resp]
      ∧ (handleUseStatement r stmt).panicked = r.panicked := by
  unfold handleUseStatement
  cases hstmt : stmt.asUseStatement with
  | none => exact ⟨_, rfl, rfl⟩
  | some use =>
    simp only [Run.call]
    cases hstore : r.e.system.Namespaces with
    | error err => exact ⟨_, rfl, rfl⟩
    | ok store =>
      simp only []
      cases hget : store.Get use.Namespace with
      | error err => cases err <;> exact ⟨_, rfl, rfl⟩
      | ok ns =>
        simp only [huser]
        by_cases ha : user.IsAdmin = true
        · simp only [ha, if_true]
          exact ⟨_, rfl, rfl⟩
        · simp only [ha]
          exact useScan_writes_one _ _ _

theorem handleCreateRootNamespace_writes_one (r : Run N) (c : CreateNamespaceStatement)
    (store : NamespaceStore N) (user : User) (huser : r.e.session.user = some user) :
    ∃ resp, (handleCreateRootNamespace r c store).w = r.w ++ [resp]
      ∧ (handleCreateRootNamespace r c store).panicked = r.panicked := by
  unfold handleCreateRootNamespace
  simp only [Run.call]
  cases hget : store.Get c.Namespace with
  | ok ns => exact ⟨_, rfl, rfl⟩
  | error err =>
    simp only [huser]
    by_cases ha : user.IsAdmin = true
    · simp only [ha, if_true]
      cases hc : store.Create c.Namespace <;> exact ⟨_, rfl, rfl⟩
    · simp only [ha]
      exact ⟨_, rfl, rfl⟩

theorem createChildOf_writes_one (r : Run N) (store : NamespaceStore N) (parent : Option N)
    (parentNamespace namespace_ : String) :
    ∃ resp, (createChildOf r store parent parentNamespace namespace_).w = r.w ++ [resp]
      ∧ (createChildOf r store parent parentNamespace namespace_).panicked = r.panicked := by
  unfold createChildOf
  simp only [Run.call]
  cases parent with
  | some p =>
    simp only []
    cases hc : r.e.system.namespaceMethods.CreateChild p namespace_ <;> exact ⟨_, rfl, rfl⟩
  | none =>
    simp only []
    cases hget : store.Get parentNamespace with
    | error err => exact ⟨_, rfl, rfl⟩
    | ok p =>
      simp only []
      cases hc : r.e.system.namespaceMethods.CreateChild p namespace_ <;> exact ⟨_, rfl, rfl⟩

theorem handleCreateNamespace_writes_one (r : Run N) (stmt : Statement) (user : User)
    (huser : r.e.session.user = some user) :
    ∃ resp, (handleCreateNamespace r stmt).w = r.w ++ [resp]
      ∧ (handleCreateNamespace r stmt).panicked = r.panicked := by
  unfold handleCreateNamespace
  cases hstmt : stmt.asCreateNamespaceStatement with
  | none => exact ⟨_, rfl, rfl⟩
  | some c =>
    simp only [Run.call]
    cases hstore : r.e.system.Namespaces with
    | error err => exact ⟨_, rfl, rfl⟩
    | ok store =>
      simp only []
      cases hex : namespaceAlreadyExists c.Namespace store with
      | true => exact ⟨_, rfl, rfl⟩
      | false =>
        simp only [Bool.false_eq_true, if_false]
        cases hroot : c.IsRootNamespace with
        | true => exact handleCreateRootNamespace_writes_one _ c store user huser
        | false =>
          simp only [Bool.false_eq_true, if_false, huser]
          obtain ⟨parent, hparent⟩ := sliceTo_LastIndex_of_not_root c hroot
          simp only [hparent]
          cases ha : user.IsAdmin with
          | true => exact createChildOf_writes_one _ store none parent c.Namespace
          | false =>
            simp only [Bool.not_false, if_true]
            cases hget : store.Get parent with
            | error err => cases err <;> exact ⟨_, rfl, rfl⟩
            | ok ns =>
              simp only []
              cases hscan : scanRoles r.e.system.namespaceMethods ns c.RequiredPermissions
                  false (user.Roles parent) with
              | false => exact ⟨_, rfl, rfl⟩
              | true => exact createChildOf_writes_one _ store (some ns) parent c.Namespace

theorem useScan_e (r : Run N) (name : String) (namespaces : List String) :
    (name ∈ namespaces → (useScan r name namespaces).e.session.namespace_ = name)
    ∧ (name ∉ namespaces → (useScan r name namespaces).e = r.e) := by
  refine ⟨fun h => ?_, fun h => ?_⟩
  · rw [useScan_of_mem r name namespaces h]; rfl
  · rw [useScan_of_not_mem r name namespaces h]; rfl

theorem useScan_calls (r : Run N) (name : String) (namespaces : List String) :
    (useScan r name namespaces).calls = r.calls := by
  by_cases h : name ∈ namespaces
  · rw [useScan_of_mem r name namespaces h]; rfl
  · rw [useScan_of_not_mem r name namespaces h]; rfl

theorem handleCreateRootNamespace_e (r : Run N) (c : CreateNamespaceStatement)
    (store : NamespaceStore N) : (handleCreateRootNamespace r c store).e = r.e := by
  unfold handleCreateRootNamespace
  simp only [Run.call]
  cases hget : store.Get c.Namespace with
  | ok ns => rfl
  | error err =>
    simp only []
    cases hu : r.e.session.user with
    | none => rfl
    | some user =>
      simp only []
      cases ha : user.IsAdmin with
      | false => rfl
      | true =>
        simp only [if_true]
        cases hc : store.Create c.Namespace <;> rfl

theorem createChildOf_e (r : Run N) (store : NamespaceStore N) (parent : Option N)
    (parentNamespace namespace_ : String) :
    (createChildOf r store parent parentNamespace namespace_).e = r.e := by
  unfold createChildOf
  simp only [Run.call]
  cases parent with
  | some p =>
    simp only []
    cases hc : r.e.system.namespaceMethods.CreateChild p namespace_ <;> rfl
  | none =>
    simp only []
    cases hget : store.Get parentNamespace with
    | error err => rfl
    | ok p =>
      simp only []
      cases hc : r.e.system.namespaceMethods.CreateChild p namespace_ <;> rfl

theorem handleCreateNamespace_e (r : Run N) (stmt : Statement) :
    (handleCreateNamespace r stmt).e = r.e := by
  unfold handleCreateNamespace
  cases hstmt : stmt.asCreateNamespaceStatement with
  | none => rfl
  | some c =>
    simp only [Run.call]
    cases hstore : r.e.system.Namespaces with
    | error err => rfl
    | ok store =>
      simp only []
      cases hex : namespaceAlreadyExists c.Namespace store with
      | true => rfl
      | false =>
        simp only [Bool.false_eq_true, if_false]
        cases hroot : c.IsRootNamespace with
        | true => exact handleCreateRootNamespace_e _ c store
        | false =>
          simp only [Bool.false_eq_true, if_false]
          cases hu : r.e.session.user with
          | none => rfl
          | some user =>
            simp only []
            cases hsl : sliceTo c.Namespace (LastIndex c.Namespace) with
            | none => rfl
            | some parent =>
              simp only []
              cases ha : user.IsAdmin with
              | true => exact createChildOf_e _ store none parent c.Namespace
              | false =>
                simp only [Bool.not_false, if_true]
                cases hget : store.Get parent with
                | error err => cases err <;> rfl
                | ok ns =>
                  simp only []
                  cases hscan : scanRoles r.e.system.namespaceMethods ns c.RequiredPermissions
                      false (user.Roles parent) with
                  | false => rfl
                  | true => exact createChildOf_e _ store (some ns) parent c.Namespace

theorem LastIndexDot_split (cs : List Char) (h : 0 ≤ LastIndexDot cs) :
    cs = cs.take (LastIndexDot cs).toNat ++ '.' :: cs.drop ((LastIndexDot cs).toNat + 1)
    ∧ '.' ∉ cs.drop ((LastIndexDot cs).toNat + 1) := by
  induction cs with
  | nil => simp [LastIndexDot] at h
  | cons c cs ih =>
    have hstep : LastIndexDot (c :: cs)
        = if 0 ≤ LastIndexDot cs then LastIndexDot cs + 1
          else if c = '.' then 0 else -1 := rfl
    by_cases hr : 0 ≤ LastIndexDot cs
    · have hidx : LastIndexDot (c :: cs) = LastIndexDot cs + 1 := by rw [hstep, if_pos hr]
      have hnat : (LastIndexDot cs + 1).toNat = (LastIndexDot cs).toNat + 1 := by omega
      obtain ⟨h1, h2⟩ := ih hr
      rw [hidx, hnat]
      refine ⟨?_, ?_⟩
      · simp only [List.take_succ_cons, List.drop_succ_cons, List.cons_append]
        rw [← h1]
      · simpa only [List.drop_succ_cons] using h2
    · have hnot : '.' ∉ cs := fun hm => hr ((LastIndexDot_nonneg_iff cs).mpr hm)
      by_cases hc : c = '.'
      · have hidx : LastIndexDot (c :: cs) = 0 := by rw [hstep, if_neg hr, if_pos hc]
        rw [hidx]
        simp [hc, hnot]
      · rw [hstep, if_neg hr, if_neg hc] at h
        omega

theorem handleUseStatement_session (r : Run N) (u : UseStatement) (user : User)
    (huser : r.e.session.user = some user) :
    ∃ resp, (handleUseStatement r (.Use u)).w = r.w ++ [resp]
      ∧ (resp.status = .OK → (handleUseStatement r (.Use u)).e.session.namespace_ = u.Namespace)
      ∧ (resp.status ≠ .OK → (handleUseStatement r (.Use u)).e = r.e) := by
  unfold handleUseStatement
  simp only [Statement.asUseStatement, Run.call]
  cases hstore : r.e.system.Namespaces with
  | error err => exact ⟨_, rfl, fun h => (by cases h), fun _ => rfl⟩
  | ok store =>
    simp only []
    cases hget : store.Get u.Namespace with
    | error err => cases err <;> exact ⟨_, rfl, fun h => (by cases h), fun _ => rfl⟩
    | ok ns =>
      simp only [huser]
      cases ha : user.IsAdmin with
      | true => exact ⟨_, rfl, fun _ => rfl, fun h => absurd rfl h⟩
      | false =>
        simp only [Bool.false_eq_true, if_false]
        by_cases hm : u.Namespace ∈ user.Namespaces
        · rw [useScan_of_mem _ _ _ hm]
          exact ⟨_, rfl, fun _ => rfl, fun h => absurd rfl h⟩
        · rw [useScan_of_not_mem _ _ _ hm]
          exact ⟨_, rfl, fun h => (by cases h), fun _ => rfl⟩

/-- What a call of a CreateNamespace execution can be: a read, a
`Create(ns)` for a root `ns`, or a `CreateChild(ns)` on the object that
`Get(parent of ns)` returned, that lookup being among the calls. -/
theorem Execute_createNamespace_calls (e : Executor N) (w : ResponseWriter)
    (c : CreateNamespaceStatement) :
    ∀ call ∈ (Execute e w (.CreateNamespace c)).calls,
      (∀ n, call = .Create n → n = c.Namespace ∧ c.IsRootNamespace = true)
      ∧ (∀ p n, call = .CreateChild p n → n = c.Namespace ∧ c.IsRootNamespace = false
          ∧ ∃ store parent, e.system.Namespaces = .ok store
              ∧ sliceTo c.Namespace (LastIndex c.Namespace) = some parent
              ∧ store.Get parent = .ok p
              ∧ Call.Get parent ∈ (Execute e w (.CreateNamespace c)).calls) := by
  cases hu : e.session.user with
  | none =>
    have hcalls : (Execute e w (.CreateNamespace c)).calls = [] := by
      simp [Execute, hu, Run.Fail]
    rw [hcalls]; intro call hmem; simp at hmem
  | some user =>
    cases hstore : e.system.Namespaces with
    | error err =>
      have hcalls : (Execute e w (.CreateNamespace c)).calls = [.Namespaces] := by
        simp [Execute, hu, Statement.NodeType, handleCreateNamespace,
          Statement.asCreateNamespaceStatement, Run.call, hstore, Run.Fail]
      rw [hcalls]; intro call hmem; simp at hmem; subst hmem; simp
    | ok store =>
      cases hex : store.Get c.Namespace with
      | ok found =>
        have hcalls : (Execute e w (.CreateNamespace c)).calls
            = [.Namespaces, .Get c.Namespace] := by
          simp [Execute, hu, Statement.NodeType, handleCreateNamespace,
            Statement.asCreateNamespaceStatement, Run.call, hstore, namespaceAlreadyExists,
            hex, Run.Success]
        rw [hcalls]; intro call hmem; simp at hmem
        rcases hmem with h | h <;> subst h <;> simp
      | error gerr =>
        cases hroot : c.IsRootNamespace with
        | true =>
          cases ha : user.IsAdmin with
          | false =>
            have hcalls : (Execute e w (.CreateNamespace c)).calls
                = [.Namespaces, .Get c.Namespace, .Get c.Namespace] := by
              simp [Execute, hu, Statement.NodeType, handleCreateNamespace,
                Statement.asCreateNamespaceStatement, Run.call, hstore,
                namespaceAlreadyExists, hex, hroot, handleCreateRootNamespace, ha, Run.Fail]
            rw [hcalls]; intro call hmem; simp at hmem
            rcases hmem with h | h <;> subst h <;> simp
          | true =>
            have hcalls : (Execute e w (.CreateNamespace c)).calls
                = [.Namespaces, .Get c.Namespace, .Get c.Namespace, .Create c.Namespace] := by
              cases hc : store.Create c.Namespace <;>
                simp [Execute, hu, Statement.NodeType, handleCreateNamespace,
                  Statement.asCreateNamespaceStatement, Run.call, hstore,
                  namespaceAlreadyExists, hex, hroot, handleCreateRootNamespace, ha,
                  Run.Fail, Run.Success, hc]
            rw [hcalls]; intro call hmem; simp at hmem
            rcases hmem with h | h | h <;> subst h <;> simp
        | false =>
          obtain ⟨parent, hsl⟩ := sliceTo_LastIndex_of_not_root c hroot
          cases ha : user.IsAdmin with
          | true =>
            cases hg : store.Get parent with
            | error perr =>
              have hcalls : (Execute e w (.CreateNamespace c)).calls
                  = [.Namespaces, .Get c.Namespace, .Get parent] := by
                simp [Execute, hu, Statement.NodeType, handleCreateNamespace,
                  Statement.asCreateNamespaceStatement, Run.call, hstore,
                  namespaceAlreadyExists, hex, hroot, hsl, ha, createChildOf, hg, Run.Fail]
              rw [hcalls]; intro call hmem; simp at hmem
              rcases hmem with h | h | h <;> subst h <;> simp
            | ok p =>
              have hcalls : (Execute e w (.CreateNamespace c)).calls
                  = [.Namespaces, .Get c.Namespace, .Get parent,
                     .CreateChild p c.Namespace] := by
                cases hc : e.system.namespaceMethods.CreateChild p c.Namespace <;>
                  simp [Execute, hu, Statement.NodeType, handleCreateNamespace,
                    Statement.asCreateNamespaceStatement, Run.call, hstore,
                    namespaceAlreadyExists, hex, hroot, hsl, ha, createChildOf, hg,
                    Run.Fail, Run.Success, hc]
              rw [hcalls]; intro call hmem; simp at hmem
              rcases hmem with h | h | h | h
              · subst h; simp
              · subst h; simp
              · subst h; simp
              · subst h
                refine ⟨fun n hn => (by cases hn), fun p' n' hn => ?_⟩
                cases hn
                exact ⟨rfl, rfl, store, parent, rfl, hsl, hg, by simp⟩
          | false =>
            cases hg : store.Get parent with
            | error perr =>
              have hcalls : (Execute e w (.CreateNamespace c)).calls
                  = [.Namespaces, .Get c.Namespace, .Get parent] := by
                cases perr <;>
                  simp [Execute, hu, Statement.NodeType, handleCreateNamespace,
                    Statement.asCreateNamespaceStatement, Run.call, hstore,
                    namespaceAlreadyExists, hex, hroot, hsl, ha, hg, Run.Fail]
              rw [hcalls]; intro call hmem; simp at hmem
              rcases hmem with h | h | h <;> subst h <;> simp
            | ok p =>
              cases hscan : scanRoles e.system.namespaceMethods p c.RequiredPermissions
                  false (user.Roles parent) with
              | false =>
                have hcalls : (Execute e w (.CreateNamespace c)).calls
                    = [.Namespaces, .Get c.Namespace, .Get parent]
                      ++ (user.Roles parent).map
                          (fun role => Call.HasPermission p role c.RequiredPermissions) := by
                  simp [Execute, hu, Statement.NodeType, handleCreateNamespace,
                    Statement.asCreateNamespaceStatement, Run.call, hstore,
                    namespaceAlreadyExists, hex, hroot, hsl, ha, hg, hscan, Run.Fail]
                rw [hcalls]; intro call hmem; simp at hmem
                rcases hmem with h | h | h | ⟨role, _, h⟩ <;> subst h <;> simp
              | true =>
                have hcalls : (Execute e w (.CreateNamespace c)).calls
                    = [.Namespaces, .Get c.Namespace, .Get parent]
                      ++ (user.Roles parent).map
                          (fun role => Call.HasPermission p role c.RequiredPermissions)
                      ++ [.CreateChild p c.Namespace] := by
                  cases hc : e.system.namespaceMethods.CreateChild p c.Namespace <;>
                    simp [Execute, hu, Statement.NodeType, handleCreateNamespace,
                      Statement.asCreateNamespaceStatement, Run.call, hstore,
                      namespaceAlreadyExists, hex, hroot, hsl, ha, hg, hscan, createChildOf,
                      Run.Fail, Run.Success, hc]
                rw [hcalls]; intro call hmem; simp at hmem
                rcases hmem with h | h | h | ⟨role, _, h⟩ | h
                · subst h; simp
                · subst h; simp
                · subst h; simp
                · subst h; simp
                · subst h
                  refine ⟨fun n hn => (by cases hn), fun p' n' hn => ?_⟩
                  cases hn
                  exact ⟨rfl, rfl, store, parent, rfl, hsl, hg, by simp⟩

theorem sliceTo_LastIndex_of_root (c : CreateNamespaceStatement)
    (h : c.IsRootNamespace = true) :
    sliceTo c.Namespace (LastIndex c.Namespace) = none := by
  have hmem : '.' ∉ c.name.data := by
    simpa [CreateNamespaceStatement.IsRootNamespace] using h
  have hneg : ¬ 0 ≤ LastIndexDot c.name.data :=
    fun h0 => hmem ((LastIndexDot_nonneg_iff c.name.data).mp h0)
  simp only [sliceTo, LastIndex, CreateNamespaceStatement.Namespace]
  rw [if_neg (fun hc => hneg hc.1)]

theorem Execute_use_calls_readonly (e : Executor N) (w : ResponseWriter) (u : UseStatement) :
    ∀ call ∈ (Execute e w (.Use u)).calls, call.isMutation = false := by
  cases hu : e.session.user with
  | none =>
    have hcalls : (Execute e w (.Use u)).calls = [] := by simp [Execute, hu, Run.Fail]
    rw [hcalls]; intro call hmem; simp at hmem
  | some user =>
    cases hstore : e.system.Namespaces with
    | error err =>
      have hcalls : (Execute e w (.Use u)).calls = [.Namespaces] := by
        simp [Execute, hu, Statement.NodeType, handleUseStatement, Statement.asUseStatement,
          Run.call, hstore, Run.Fail]
      rw [hcalls]; intro call hmem; simp at hmem; subst hmem; rfl
    | ok store =>
      have hcalls : (Execute e w (.Use u)).calls = [.Namespaces, .Get u.Namespace] := by
        cases hget : store.Get u.Namespace with
        | error err =>
          cases err <;>
            simp [Execute, hu, Statement.NodeType, handleUseStatement,
              Statement.asUseStatement, Run.call, hstore, hget, Run.Fail]
        | ok ns =>
          cases ha : user.IsAdmin <;>
            simp [Execute, hu, Statement.NodeType, handleUseStatement,
              Statement.asUseStatement, Run.call, hstore, hget, ha, useScan_calls,
              Run.Success, Run.selectNamespace]
      rw [hcalls]; intro call hmem; simp at hmem
      rcases hmem with h | h <;> subst h <;> rfl

theorem mem_insertedNames (calls : List (Call String)) (n : String) :
    n ∈ insertedNames calls
      ↔ ∃ call ∈ calls, call = .Create n ∨ ∃ p, call = .CreateChild p n := by
  unfold insertedNames
  rw [List.mem_filterMap]
  constructor
  · rintro ⟨call, hmem, h⟩
    refine ⟨call, hmem, ?_⟩
    cases call with
    | Create m => simp at h; exact Or.inl (by rw [h])
    | CreateChild p m => simp at h; exact Or.inr ⟨p, by rw [h]⟩
    | Namespaces => simp at h
    | Get m => simp at h
    | HasPermission a b d => simp at h
  · rintro ⟨call, hmem, h | ⟨p, h⟩⟩
    · exact ⟨call, hmem, by rw [h]⟩
    · exact ⟨call, hmem, by rw [h]⟩

/-! ## The lexer and the parser -/

/-- The model of the lexer and the parser reproduces every case of
`parser_test.go`: the statements of the valid commands and the texts of the
errors. -/
theorem ParseStatement_test_table :
    errstring (ParseStatement "a bad statement.")
        = "found a, expected USE, CREATE, SHOW, DROP at line 1, char 1"
    ∧ ParseStatement "USE acme.example" = .ok (.Use ⟨"acme.example"⟩)
    ∧ errstring (ParseStatement "USE ") = "found EOF, expected namespace at line 1, char 6"
    ∧ errstring (ParseStatement "USE acme.example.")
        = "found EOF, expected identifier at line 1, char 18"
    ∧ errstring (ParseStatement "USE acme.example. ")
        = "found WS, expected identifier at line 1, char 18"
    ∧ errstring (ParseStatement "USE .example")
        = "found ., expected namespace at line 1, char 5"
    ∧ ParseStatement "CREATE NAMESPACE acme" = .ok (.CreateNamespace ⟨"acme"⟩)
    ∧ errstring (ParseStatement "CREATE ")
        = "found EOF, expected NAMESPACE at line 1, char 9"
    ∧ errstring (ParseStatement "CREATE NAMESPACE ")
        = "found EOF, expected namespace at line 1, char 19"
    ∧ errstring (ParseStatement "CREATE NAMESPACE acme.example.")
        = "found EOF, expected identifier at line 1, char 31"
    ∧ errstring (ParseStatement "CREATE NAMESPACE acme.example. ")
        = "found WS, expected identifier at line 1, char 31"
    ∧ errstring (ParseStatement "CREATE NAMESPACE .example")
        = "found ., expected namespace at line 1, char 18"
    ∧ ParseStatement "DROP NAMESPACE acme" = .ok (.DropNamespace ⟨"acme"⟩)
    ∧ errstring (ParseStatement "DROP ") = "found EOF, expected NAMESPACE at line 1, char 7"
    ∧ errstring (ParseStatement "DROP NAMESPACE ")
        = "found EOF, expected namespace at line 1, char 17"
    ∧ errstring (ParseStatement "DROP NAMESPACE acme.example.")
        = "found EOF, expected identifier at line 1, char 29"
    ∧ errstring (ParseStatement "DROP NAMESPACE acme.example. ")
        = "found WS, expected identifier at line 1, char 29"
    ∧ errstring (ParseStatement "DROP NAMESPACE .example")
        = "found ., expected namespace at line 1, char 16"
    ∧ ParseStatement "SHOW NAMESPACES" = .ok (.ShowNamespaces ⟨⟩)
    ∧ errstring (ParseStatement "SHOW ") = "found EOF, expected NAMESPACES at line 1, char 7"
    ∧ errstring (ParseStatement "SHOW NAMESPACE")
        = "found NAMESPACE, expected NAMESPACES at line 1, char 6" :=
  ⟨by decide, by rfl, by decide, by decide, by decide, by decide, by rfl, by decide, by decide,
   by decide, by decide, by decide, by rfl, by decide, by decide, by decide, by decide,
   by decide, by rfl, by decide, by decide⟩

theorem isIdentChar_not_whitespace (c : Char) (h : isIdentChar c = true) :
    isWhitespace c = false := by
  cases hw : isWhitespace c with
  | false => rfl
  | true =>
    simp only [isWhitespace, Bool.or_eq_true, decide_eq_true_eq] at hw
    rcases hw with (hc | hc) | hc <;> subst hc <;> exact absurd h (by decide)

theorem takeWhile_run (p : Char → Bool) (run tail : List Char)
    (hrun : ∀ c ∈ run, p c = true) (hstop : stopsAt p tail) :
    (run ++ tail).takeWhile p = run ∧ (run ++ tail).dropWhile p = tail := by
  induction run with
  | nil =>
    cases tail with
    | nil => simp
    | cons c cs =>
      have hc : p c = false := hstop c (by simp)
      simp [List.takeWhile, List.dropWhile, hc]
  | cons a run ih =>
    have ha : p a = true := hrun a (by simp)
    have ih' := ih (fun c hc => hrun c (List.mem_cons_of_mem _ hc))
    simp [List.takeWhile, List.dropWhile, ha, ih'.1, ih'.2]

theorem Scan_word (run tail : List Char) (pos : Pos) (offset : Nat) (hne : run ≠ [])
    (hrun : ∀ c ∈ run, isIdentChar c = true) (hstop : stopsAt isIdentChar tail) :
    Scanner.Scan ⟨run ++ tail, pos, offset⟩
      = (⟨wordKind ⟨run⟩, ⟨run⟩, pos, offset⟩,
         ⟨tail, ⟨pos.line, pos.char + run.length⟩, offset + run.length⟩) := by
  obtain ⟨htake, hdrop⟩ := takeWhile_run isIdentChar run tail hrun hstop
  cases run with
  | nil => exact absurd rfl hne
  | cons c cs =>
    have hc : isIdentChar c = true := hrun c (by simp)
    have hw : isWhitespace c = false := isIdentChar_not_whitespace c hc
    simp only [List.cons_append] at htake hdrop
    simp only [Scanner.Scan, List.cons_append, hw, hc, if_true, Bool.false_eq_true, if_false,
      htake, hdrop, wordKind]

theorem Scan_space (tail : List Char) (pos : Pos) (offset : Nat) (hne : tail ≠ [])
    (hstop : stopsAt isWhitespace tail) :
    Scanner.Scan ⟨' ' :: tail, pos, offset⟩
      = (⟨.whitespace, " ", pos, offset⟩, ⟨tail, ⟨pos.line, pos.char + 1⟩, offset + 1⟩) := by
  obtain ⟨htake, hdrop⟩ := takeWhile_run isWhitespace [' '] tail (by decide) hstop
  simp only [List.singleton_append] at htake hdrop
  have hw : isWhitespace ' ' = true := by decide
  have hempty : tail.isEmpty = false := by
    cases tail with
    | nil => exact absurd rfl hne
    | cons c cs => rfl
  have hstep : List.foldl Pos.advance pos [' '] = ⟨pos.line, pos.char + 1⟩ := by
    simp [List.foldl, Pos.advance]
  simp only [Scanner.Scan, hw, if_true, htake, hdrop, hempty, Bool.false_eq_true, if_false,
    hstep, List.length_singleton]

theorem Scan_dot (tail : List Char) (pos : Pos) (offset : Nat) :
    Scanner.Scan ⟨'.' :: tail, pos, offset⟩
      = (⟨.dot, ".", pos, offset⟩, ⟨tail, ⟨pos.line, pos.char + 1⟩, offset + 1⟩) := by
  have hw : isWhitespace '.' = false := by decide
  have hi : isIdentChar '.' = false := by decide
  simp only [Scanner.Scan, hw, hi, Bool.false_eq_true, if_false, if_true]

theorem isIdentifier_iff (seg : String) :
    isIdentifier seg = true
      ↔ seg.data ≠ [] ∧ (∀ c ∈ seg.data, isIdentChar c = true) ∧ Lookup seg = none := by
  simp [isIdentifier, List.all_eq_true, Option.isNone_iff_eq_none, List.isEmpty_iff, and_assoc]

theorem stopsAt_of_identifier (p : Char → Bool) (seg : String) (tail : List Char)
    (hseg : isIdentifier seg = true) (hp : ∀ c, isIdentChar c = true → p c = false) :
    stopsAt p (seg.data ++ tail) := by
  obtain ⟨hne, hall, _⟩ := (isIdentifier_iff seg).mp hseg
  cases hd : seg.data with
  | nil => exact absurd hd hne
  | cons c cs =>
    intro x hx
    simp only [List.cons_append, List.head?_cons, Option.mem_def, Option.some.injEq] at hx
    subst hx
    exact hp c (hall c (by rw [hd]; simp))

theorem stopsAt_tailChars (segs : List String) (suffix : List Char)
    (hsuffix : stopsAt isIdentChar suffix) : stopsAt isIdentChar (tailChars segs ++ suffix) := by
  cases segs with
  | nil => simpa [tailChars] using hsuffix
  | cons seg segs =>
    intro x hx
    simp only [tailChars, List.cons_append, List.head?_cons, Option.mem_def,
      Option.some.injEq] at hx
    subst hx
    decide

theorem namespacePath_data (first : String) (rest : List String) :
    (namespacePath first rest).data = first.data ++ tailChars rest := by
  unfold namespacePath
  induction rest generalizing first with
  | nil => simp [tailChars]
  | cons seg rest ih =>
    simp only [List.foldl_cons, ih, String.data_append, tailChars]
    simp

theorem length_le_tailChars (segs : List String) : segs.length ≤ (tailChars segs).length := by
  induction segs with
  | nil => simp
  | cons seg segs ih => simp only [tailChars, List.length_cons, List.length_append]; omega

theorem parseNamespaceTail_nil (fuel : Nat) (pos : Pos) (offset : Nat) (acc : String) :
    parseNamespaceTail fuel ⟨[], pos, offset⟩ acc = .ok acc := by
  cases fuel with
  | zero => rfl
  | succ fuel => simp [parseNamespaceTail, Scanner.Scan]

/-- The repetition `("." identifier)*` reads the identifiers `segs` and goes
on with what follows them. -/
theorem parseNamespaceTail_segments (segs : List String) (fuel : Nat) (pos : Pos)
    (offset : Nat) (acc : String) (suffix : List Char)
    (hsegs : ∀ seg ∈ segs, isIdentifier seg = true) (hfuel : segs.length ≤ fuel)
    (hsuffix : stopsAt isIdentChar suffix) :
    parseNamespaceTail fuel ⟨tailChars segs ++ suffix, pos, offset⟩ acc
      = parseNamespaceTail (fuel - segs.length)
          ⟨suffix, ⟨pos.line, pos.char + (tailChars segs).length⟩,
            offset + (tailChars segs).length⟩
          (segs.foldl (fun acc seg => acc ++ "." ++ seg) acc) := by
  induction segs generalizing fuel pos offset acc with
  | nil => simp [tailChars]
  | cons seg segs ih =>
    obtain ⟨hne, hall, hkey⟩ := (isIdentifier_iff seg).mp (hsegs seg (by simp))
    cases fuel with
    | zero => simp at hfuel
    | succ fuel =>
      have hword := Scan_word seg.data (tailChars segs ++ suffix) ⟨pos.line, pos.char + 1⟩
        (offset + 1) hne hall (stopsAt_tailChars segs suffix hsuffix)
      have hkind : wordKind ⟨seg.data⟩ = .identifier := by
        simp only [wordKind]
        rw [show (⟨seg.data⟩ : String) = seg from rfl, hkey]
      have hstep : parseNamespaceTail (fuel + 1)
            ⟨tailChars (seg :: segs) ++ suffix, pos, offset⟩ acc
          = parseNamespaceTail fuel
              ⟨tailChars segs ++ suffix, ⟨pos.line, pos.char + 1 + seg.data.length⟩,
                offset + 1 + seg.data.length⟩ (acc ++ "." ++ seg) := by
        simp only [parseNamespaceTail, tailChars, List.cons_append, List.append_assoc, Scan_dot,
          hword, hkind]
      rw [hstep, ih fuel _ _ _ (fun s hs => hsegs s (List.mem_cons_of_mem _ hs))
        (by simpa using hfuel)]
      have e1 : fuel + 1 - (seg :: segs).length = fuel - segs.length := by simp
      have e2 : (tailChars (seg :: segs)).length
          = 1 + seg.data.length + (tailChars segs).length := by
        simp only [tailChars, List.length_cons, List.length_append]; omega
      have e3 : pos.char + 1 + seg.data.length + (tailChars segs).length
          = pos.char + (1 + seg.data.length + (tailChars segs).length) := by omega
      have e4 : offset + 1 + seg.data.length + (tailChars segs).length
          = offset + (1 + seg.data.length + (tailChars segs).length) := by omega
      rw [e1, e2, List.foldl_cons]
      simp only [e3, e4]

/-- After a keyword: the whitespace, the first identifier and the
identifiers that follow are read, and the parser goes on with what follows
the path. -/
theorem parseNamespace_path (first : String) (rest : List String) (suffix : List Char)
    (pos : Pos) (offset : Nat) (hfirst : isIdentifier first = true)
    (hrest : ∀ seg ∈ rest, isIdentifier seg = true) (hsuffix : stopsAt isIdentChar suffix) :
    parseNamespace ⟨' ' :: (first.data ++ (tailChars rest ++ suffix)), pos, offset⟩
      = parseNamespaceTail ((tailChars rest ++ suffix).length - rest.length)
          ⟨suffix,
            ⟨pos.line, pos.char + 1 + first.data.length + (tailChars rest).length⟩,
            offset + 1 + first.data.length + (tailChars rest).length⟩
          (namespacePath first rest) := by
  obtain ⟨hne, hall, hkey⟩ := (isIdentifier_iff first).mp hfirst
  have hne' : first.data ++ (tailChars rest ++ suffix) ≠ [] := by
    intro h
    exact hne (List.append_eq_nil.mp h).1
  have hspace := Scan_space (first.data ++ (tailChars rest ++ suffix)) pos offset hne'
    (stopsAt_of_identifier isWhitespace first _ hfirst isIdentChar_not_whitespace)
  have hword := Scan_word first.data (tailChars rest ++ suffix) ⟨pos.line, pos.char + 1⟩
    (offset + 1) hne hall (stopsAt_tailChars rest suffix hsuffix)
  have hkind : wordKind ⟨first.data⟩ = .identifier := by
    simp only [wordKind]
    rw [show (⟨first.data⟩ : String) = first from rfl, hkey]
  have hfuel : rest.length ≤ (tailChars rest ++ suffix).length := by
    have := length_le_tailChars rest
    simp only [List.length_append]; omega
  simp only [parseNamespace, Scanner.scanIgnoreWhitespace, hspace, if_true, hword, hkind]
  rw [parseNamespaceTail_segments rest _ _ _ _ suffix hrest hfuel hsuffix]
  rfl

/-- After `CREATE` or `DROP`: the whitespace and the keyword `NAMESPACE` are
read, and the parser goes on with the namespace path. -/
theorem parseNamespaceKeyword_space (tail : List Char) (pos : Pos) (offset : Nat) :
    parseNamespaceKeyword
        ⟨' ' :: 'N' :: 'A' :: 'M' :: 'E' :: 'S' :: 'P' :: 'A' :: 'C' :: 'E' :: ' ' :: tail,
          pos, offset⟩
      = parseNamespace ⟨' ' :: tail, ⟨pos.line, pos.char + 10⟩, offset + 10⟩ := by
  have hspace := Scan_space
    ('N' :: 'A' :: 'M' :: 'E' :: 'S' :: 'P' :: 'A' :: 'C' :: 'E' :: ' ' :: tail) pos offset
    (by simp) (by intro c hc; simp at hc; subst hc; decide)
  have hword := Scan_word ['N', 'A', 'M', 'E', 'S', 'P', 'A', 'C', 'E'] (' ' :: tail)
    ⟨pos.line, pos.char + 1⟩ (offset + 1) (by simp) (by decide)
    (by intro c hc; simp at hc; subst hc; decide)
  have hkind : wordKind ⟨['N', 'A', 'M', 'E', 'S', 'P', 'A', 'C', 'E']⟩
      = .keyword .NAMESPACE := by decide
  simp only [List.cons_append, List.nil_append] at hword
  simp only [parseNamespaceKeyword, Scanner.scanIgnoreWhitespace, hspace, if_true, hword,
    hkind, List.length_cons, List.length_nil]

/-- The command `USE` followed by a space: the parser goes on with the
namespace path. -/
theorem ParseStatement_use (input : String) (tail : List Char)
    (hinput : input.data = 'U' :: 'S' :: 'E' :: ' ' :: tail) :
    ParseStatement input
      = match parseNamespace ⟨' ' :: tail, ⟨1, 4⟩, 3⟩ with
        | .ok ns => .ok (.Use ⟨ns⟩)
        | .error e => .error e := by
  have hword := Scan_word ['U', 'S', 'E'] (' ' :: tail) ⟨1, 1⟩ 0 (by simp) (by decide)
    (by intro c hc; simp at hc; subst hc; decide)
  have hkind : wordKind ⟨['U', 'S', 'E']⟩ = .keyword .USE := by decide
  simp only [List.cons_append, List.nil_append] at hword
  simp only [ParseStatement, NewScanner, hinput, hword, hkind, List.length_cons,
    List.length_nil]

/-- The command `CREATE NAMESPACE` followed by a space: the parser goes on
with the namespace path. -/
theorem ParseStatement_create (input : String) (tail : List Char)
    (hinput : input.data = 'C' :: 'R' :: 'E' :: 'A' :: 'T' :: 'E' :: ' ' :: 'N' :: 'A' :: 'M'
      :: 'E' :: 'S' :: 'P' :: 'A' :: 'C' :: 'E' :: ' ' :: tail) :
    ParseStatement input
      = match parseNamespace ⟨' ' :: tail, ⟨1, 17⟩, 16⟩ with
        | .ok ns => .ok (.CreateNamespace ⟨ns⟩)
        | .error e => .error e := by
  have hword := Scan_word ['C', 'R', 'E', 'A', 'T', 'E']
    (' ' :: 'N' :: 'A' :: 'M' :: 'E' :: 'S' :: 'P' :: 'A' :: 'C' :: 'E' :: ' ' :: tail)
    ⟨1, 1⟩ 0 (by simp) (by decide) (by intro c hc; simp at hc; subst hc; decide)
  have hkind : wordKind ⟨['C', 'R', 'E', 'A', 'T', 'E']⟩ = .keyword .CREATE := by decide
  simp only [List.cons_append, List.nil_append] at hword
  simp only [ParseStatement, NewScanner, hinput, hword, hkind, List.length_cons,
    List.length_nil, parseNamespaceKeyword_space]

/-- The command `DROP NAMESPACE` followed by a space: the parser goes on with
the namespace path. -/
theorem ParseStatement_drop (input : String) (tail : List Char)
    (hinput : input.data = 'D' :: 'R' :: 'O' :: 'P' :: ' ' :: 'N' :: 'A' :: 'M'
      :: 'E' :: 'S' :: 'P' :: 'A' :: 'C' :: 'E' :: ' ' :: tail) :
    ParseStatement input
      = match parseNamespace ⟨' ' :: tail, ⟨1, 15⟩, 14⟩ with
        | .ok ns => .ok (.DropNamespace ⟨ns⟩)
        | .error e => .error e := by
  have hword := Scan_word ['D', 'R', 'O', 'P']
    (' ' :: 'N' :: 'A' :: 'M' :: 'E' :: 'S' :: 'P' :: 'A' :: 'C' :: 'E' :: ' ' :: tail)
    ⟨1, 1⟩ 0 (by simp) (by decide) (by intro c hc; simp at hc; subst hc; decide)
  have hkind : wordKind ⟨['D', 'R', 'O', 'P']⟩ = .keyword .DROP := by decide
  simp only [List.cons_append, List.nil_append] at hword
  simp only [ParseStatement, NewScanner, hinput, hword, hkind, List.length_cons,
    List.length_nil, parseNamespaceKeyword_space]

/-- A `.` followed by the end of the input or by whitespace: the token after
the `.` fails, expecting `identifier`. -/
theorem parseNamespaceTail_dangling (fuel : Nat) (tail : List Char) (pos : Pos) (offset : Nat)
    (acc : String) (hfuel : 0 < fuel)
    (htail : tail = [] ∨ ∃ c cs, tail = c :: cs ∧ isWhitespace c = true) :
    ∃ t, parseNamespaceTail fuel ⟨'.' :: tail, pos, offset⟩ acc = .error ⟨t, "identifier"⟩
      ∧ t.pos = ⟨pos.line, pos.char + 1⟩ ∧ t.offset = offset + 1
      ∧ t.kind = (if tail = [] then TokenKind.eof else TokenKind.whitespace) := by
  cases fuel with
  | zero => exact absurd hfuel (by decide)
  | succ fuel =>
    rcases htail with h | ⟨c, cs, h, hc⟩
    · subst h
      refine ⟨⟨.eof, "", ⟨pos.line, pos.char + 1⟩, offset + 1⟩, ?_, rfl, rfl, rfl⟩
      simp only [parseNamespaceTail, Scan_dot]
      simp [Scanner.Scan]
    · subst h
      refine ⟨⟨.whitespace, ⟨(c :: cs).takeWhile isWhitespace⟩, ⟨pos.line, pos.char + 1⟩,
          offset + 1⟩, ?_, rfl, rfl, by simp⟩
      simp only [parseNamespaceTail, Scan_dot]
      simp [Scanner.Scan, hc]

theorem String_length_append (a b : String) :
    (a ++ b).length = a.data.length + b.data.length := by
  rw [String.length_append]
  rfl

theorem stopsAt_nil (p : Char → Bool) : stopsAt p [] := by
  intro c hc; simp at hc

theorem stopsAt_dot (tail : List Char) : stopsAt isIdentChar ('.' :: tail) := by
  intro c hc
  simp only [List.head?_cons, Option.mem_def, Option.some.injEq] at hc
  subst hc; decide

/-- A complete namespace path after a keyword and a space parses to the
path. -/
theorem parseNamespace_complete (first : String) (rest : List String) (pos : Pos)
    (offset : Nat) (hfirst : isIdentifier first = true)
    (hrest : ∀ seg ∈ rest, isIdentifier seg = true) :
    parseNamespace ⟨' ' :: (namespacePath first rest).data, pos, offset⟩
      = .ok (namespacePath first rest) := by
  have h := parseNamespace_path first rest [] pos offset hfirst hrest (stopsAt_nil _)
  rw [namespacePath_data]
  simp only [List.append_nil] at h
  rw [h, parseNamespaceTail_nil]

/-- A namespace path with a dangling `.` after a keyword and a space fails
on the token after the `.`, expecting `identifier`. -/
theorem parseNamespace_dangling (first : String) (rest : List String) (tail : List Char)
    (pos : Pos) (offset : Nat) (hfirst : isIdentifier first = true)
    (hrest : ∀ seg ∈ rest, isIdentifier seg = true)
    (htail : tail = [] ∨ ∃ c cs, tail = c :: cs ∧ isWhitespace c = true) :
    ∃ t, parseNamespace ⟨' ' :: ((namespacePath first rest).data ++ '.' :: tail), pos, offset⟩
        = .error ⟨t, "identifier"⟩
      ∧ t.pos = ⟨pos.line, pos.char + 1 + (namespacePath first rest).data.length + 1⟩
      ∧ t.offset = offset + 1 + (namespacePath first rest).data.length + 1
      ∧ t.kind = (if tail = [] then TokenKind.eof else TokenKind.whitespace) := by
  have h := parseNamespace_path first rest ('.' :: tail) pos offset hfirst hrest
    (stopsAt_dot tail)
  have hfuel : 0 < (tailChars rest ++ '.' :: tail).length - rest.length := by
    have := length_le_tailChars rest
    simp only [List.length_append, List.length_cons]; omega
  obtain ⟨t, ht, hpos, hoff, hkind⟩ := parseNamespaceTail_dangling _ tail
    ⟨pos.line, pos.char + 1 + first.data.length + (tailChars rest).length⟩
    (offset + 1 + first.data.length + (tailChars rest).length)
    (namespacePath first rest) hfuel htail
  refine ⟨t, ?_, ?_, ?_, hkind⟩
  · rw [namespacePath_data, List.append_assoc, h, ht]
  · rw [hpos, namespacePath_data]
    simp only [List.length_append, Pos.mk.injEq, true_and]
    omega
  · rw [hoff, namespacePath_data]
    simp only [List.length_append]
    omega

theorem scanIgnoreWhitespace_reachable (input : String) (s : Scanner)
    (hs : Reachable input s) :
    ∃ s0, Reachable input s0 ∧ s.scanIgnoreWhitespace = s0.Scan := by
  unfold Scanner.scanIgnoreWhitespace
  by_cases h : s.Scan.1.kind = .whitespace
  · exact ⟨s.Scan.2, Reachable.scan s hs, by simp [h]⟩
  · exact ⟨s, hs, by simp [h]⟩

theorem parseNamespaceTail_error (input : String) (fuel : Nat) (s : Scanner) (acc : String)
    (e : ParseError) (hs : Reachable input s)
    (he : parseNamespaceTail fuel s acc = .error e) :
    ∃ s0, Reachable input s0 ∧ e.tok = s0.Scan.1 := by
  induction fuel generalizing s acc with
  | zero => simp [parseNamespaceTail] at he
  | succ fuel ih =>
    simp only [parseNamespaceTail] at he
    split at he
    · split at he
      · exact ih _ _ (Reachable.scan _ (Reachable.scan s hs)) he
      · simp only [Except.error.injEq] at he
        exact ⟨s.Scan.2, Reachable.scan s hs, by rw [← he]⟩
    · cases he

theorem parseNamespace_error (input : String) (s : Scanner) (e : ParseError)
    (hs : Reachable input s) (he : parseNamespace s = .error e) :
    ∃ s0, Reachable input s0 ∧ e.tok = s0.Scan.1 := by
  obtain ⟨s0, hs0, hscan⟩ := scanIgnoreWhitespace_reachable input s hs
  simp only [parseNamespace, hscan] at he
  split at he
  · exact parseNamespaceTail_error input _ _ _ e (Reachable.scan s0 hs0) he
  · simp only [Except.error.injEq] at he
    exact ⟨s0, hs0, by rw [← he]⟩

theorem parseNamespaceKeyword_error (input : String) (s : Scanner) (e : ParseError)
    (hs : Reachable input s) (he : parseNamespaceKeyword s = .error e) :
    ∃ s0, Reachable input s0 ∧ e.tok = s0.Scan.1 := by
  obtain ⟨s0, hs0, hscan⟩ := scanIgnoreWhitespace_reachable input s hs
  simp only [parseNamespaceKeyword, hscan] at he
  split at he
  · exact parseNamespace_error input _ e (Reachable.scan s0 hs0) he
  · simp only [Except.error.injEq] at he
    exact ⟨s0, hs0, by rw [← he]⟩

/-- The failing token of a syntax error is the token scanned at a state the
lexer reaches on the input. -/
theorem ParseStatement_error (input : String) (e : ParseError)
    (he : ParseStatement input = .error e) :
    ∃ s0, Reachable input s0 ∧ e.tok = s0.Scan.1 := by
  have h0 : Reachable input (NewScanner input) := Reachable.start
  have h1 := Reachable.scan _ h0
  simp only [ParseStatement] at he
  split at he
  · cases hp : parseNamespace (NewScanner input).Scan.2 with
    | ok ns => rw [hp] at he; cases he
    | error e' =>
      rw [hp] at he
      simp only [Except.error.injEq] at he
      subst he
      exact parseNamespace_error input _ e' h1 hp
  · cases hp : parseNamespaceKeyword (NewScanner input).Scan.2 with
    | ok ns => rw [hp] at he; cases he
    | error e' =>
      rw [hp] at he
      simp only [Except.error.injEq] at he
      subst he
      exact parseNamespaceKeyword_error input _ e' h1 hp
  · cases hp : parseNamespaceKeyword (NewScanner input).Scan.2 with
    | ok ns => rw [hp] at he; cases he
    | error e' =>
      rw [hp] at he
      simp only [Except.error.injEq] at he
      subst he
      exact parseNamespaceKeyword_error input _ e' h1 hp
  · obtain ⟨s0, hs0, hscan⟩ := scanIgnoreWhitespace_reachable input _ h1
    rw [hscan] at he
    split at he
    · cases he
    · simp only [Except.error.injEq] at he
      exact ⟨s0, hs0, by rw [← he]⟩
  · simp only [Except.error.injEq] at he
    exact ⟨_, h0, by rw [← he]⟩

theorem foldl_advance (run : List Char) (pos : Pos) (h : '\n' ∉ run) :
    run.foldl Pos.advance pos = ⟨pos.line, pos.char + run.length⟩ := by
  induction run generalizing pos with
  | nil => rfl
  | cons c cs ih =>
    have hc : c ≠ '\n' := fun hc => h (by simp [hc])
    have hcs : '\n' ∉ cs := fun hm => h (List.mem_cons_of_mem _ hm)
    simp only [List.foldl_cons, Pos.advance, hc, if_false, ih _ hcs, List.length_cons]
    congr 1
    omega

theorem endsWithWhitespace_append (consumed run : List Char) (b : Bool) (hne : run ≠ [])
    (hall : ∀ c ∈ run, isWhitespace c = b) : endsWithWhitespace (consumed ++ run) = b := by
  unfold endsWithWhitespace
  rw [List.getLast?_append_of_ne_nil _ hne]
  cases hl : run.getLast? with
  | none => exact absurd (List.getLast?_eq_none_iff.mp hl) hne
  | some c => exact hall c (List.mem_of_getLast?_eq_some hl)

theorem Scan_eof (s : Scanner) (h : s.rest = []) :
    s.Scan = (⟨.eof, "", s.pos, s.offset⟩, s) := by
  simp [Scanner.Scan, h]

theorem Scan_whitespace (s : Scanner) (c : Char) (cs : List Char) (h : s.rest = c :: cs)
    (hw : isWhitespace c = true) :
    s.Scan = (⟨.whitespace, ⟨(c :: cs).takeWhile isWhitespace⟩, s.pos, s.offset⟩,
      ⟨(c :: cs).dropWhile isWhitespace,
        if ((c :: cs).dropWhile isWhitespace).isEmpty then
          ⟨(((c :: cs).takeWhile isWhitespace).foldl Pos.advance s.pos).line,
            (((c :: cs).takeWhile isWhitespace).foldl Pos.advance s.pos).char + 1⟩
        else ((c :: cs).takeWhile isWhitespace).foldl Pos.advance s.pos,
        s.offset + ((c :: cs).takeWhile isWhitespace).length⟩) := by
  simp only [Scanner.Scan, h, hw, if_true]

theorem Scan_other (s : Scanner) (c : Char) (cs : List Char) (h : s.rest = c :: cs)
    (hw : isWhitespace c = false) :
    ∃ run rest kind, run ≠ [] ∧ c :: cs = run ++ rest
      ∧ (∀ x ∈ run, isWhitespace x = false)
      ∧ kind ≠ TokenKind.eof ∧ kind ≠ TokenKind.whitespace
      ∧ s.Scan = (⟨kind, ⟨run⟩, s.pos, s.offset⟩,
          ⟨rest, ⟨s.pos.line, s.pos.char + run.length⟩, s.offset + run.length⟩) := by
  by_cases hi : isIdentChar c = true
  · refine ⟨(c :: cs).takeWhile isIdentChar, (c :: cs).dropWhile isIdentChar,
      wordKind ⟨(c :: cs).takeWhile isIdentChar⟩, ?_, ?_, ?_, ?_, ?_, ?_⟩
    · simp [List.takeWhile, hi]
    · exact (List.takeWhile_append_dropWhile isIdentChar (c :: cs)).symm
    · intro x hx
      exact isIdentChar_not_whitespace x (List.mem_takeWhile_imp hx)
    · unfold wordKind; split <;> simp
    · unfold wordKind; split <;> simp
    · simp only [Scanner.Scan, h, hw, hi, if_true, Bool.false_eq_true, if_false, wordKind]
  · by_cases hd : c = '.'
    · refine ⟨[c], cs, .dot, by simp, rfl, ?_, by simp, by simp, ?_⟩
      · intro x hx; rw [List.mem_singleton.mp hx]; exact hw
      · subst hd
        simp only [Scanner.Scan, h, hw, hi, if_true, Bool.false_eq_true, if_false,
          List.length_singleton]
    · refine ⟨[c], cs, .illegal, by simp, rfl, ?_, by simp, by simp, ?_⟩
      · intro x hx; rw [List.mem_singleton.mp hx]; exact hw
      · simp only [Scanner.Scan, h, hw, hi, hd, if_true, Bool.false_eq_true, if_false,
          List.length_singleton]

/-- What the lexer has read and where it stands: at a reachable state the
input is the characters read followed by the characters left, `offset` counts
the characters read and, on a single-line input, the position is line 1 and
char `offset + 1`, one more when a whitespace run has reached the end of the
input. -/
theorem Reachable_inv (input : String) (s : Scanner) (hs : Reachable input s) :
    ∃ consumed, input.data = consumed ++ s.rest ∧ s.offset = consumed.length
      ∧ ('\n' ∉ input.data → s.pos.line = 1
          ∧ s.pos.char = s.offset + 1
              + (if s.rest = [] ∧ endsWithWhitespace input.data = true then 1 else 0)) := by
  induction hs with
  | start =>
    refine ⟨[], rfl, rfl, fun _ => ⟨rfl, ?_⟩⟩
    by_cases hnil : input.data = []
    · simp [NewScanner, hnil, endsWithWhitespace]
    · simp [NewScanner, hnil]
  | scan s _ ih =>
    obtain ⟨consumed, hin, hoff, hpos⟩ := ih
    cases hrest : s.rest with
    | nil =>
      rw [Scan_eof s hrest]
      exact ⟨consumed, hin, hoff, hpos⟩
    | cons c cs =>
      rw [hrest] at hin
      cases hw : isWhitespace c with
      | true =>
        rw [Scan_whitespace s c cs hrest hw]
        have hsplit := List.takeWhile_append_dropWhile isWhitespace (c :: cs)
        have hne : (c :: cs).takeWhile isWhitespace ≠ [] := by simp [List.takeWhile, hw]
        refine ⟨consumed ++ (c :: cs).takeWhile isWhitespace, ?_, ?_, ?_⟩
        · simp only [List.append_assoc, hsplit]; exact hin
        · simp only [List.length_append, hoff]
        · intro hnl
          obtain ⟨hline, hchar⟩ := hpos hnl
          have hrun : '\n' ∉ (c :: cs).takeWhile isWhitespace := by
            intro hm
            apply hnl
            rw [hin, ← hsplit]
            simp only [List.mem_append]
            exact Or.inr (Or.inl hm)
          have hchar' : s.pos.char = s.offset + 1 := by
            rw [hchar, hrest]; simp
          rw [foldl_advance _ _ hrun]
          by_cases hdrop : (c :: cs).dropWhile isWhitespace = []
          · have hends : endsWithWhitespace input.data = true := by
              rw [hin, ← hsplit, hdrop, List.append_nil]
              exact endsWithWhitespace_append _ _ true hne
                (fun x hx => List.mem_takeWhile_imp hx)
            simp only [hdrop, List.isEmpty_nil, if_true, hends, and_self]
            exact ⟨hline, by omega⟩
          · have hemp : ((c :: cs).dropWhile isWhitespace).isEmpty = false := by
              cases hd : (c :: cs).dropWhile isWhitespace with
              | nil => exact absurd hd hdrop
              | cons a b => rfl
            simp only [hemp, Bool.false_eq_true, if_false, hdrop, false_and]
            exact ⟨hline, by omega⟩
      | false =>
        obtain ⟨run, rest, kind, hne, hsplit, hnows, _, _, hscan⟩ := Scan_other s c cs hrest hw
        rw [hscan]
        refine ⟨consumed ++ run, ?_, ?_, ?_⟩
        · simp only [List.append_assoc, ← hsplit]; exact hin
        · simp only [List.length_append, hoff]
        · intro hnl
          obtain ⟨hline, hchar⟩ := hpos hnl
          have hchar' : s.pos.char = s.offset + 1 := by
            rw [hchar, hrest]; simp
          refine ⟨hline, ?_⟩
          by_cases hr : rest = []
          · have hends : endsWithWhitespace input.data = false := by
              rw [hin, hsplit, hr, List.append_nil]
              exact endsWithWhitespace_append _ _ false hne hnows
            simp only [hr, hends, Bool.false_eq_true, and_false, if_false]
            omega
          · simp only [hr, false_and, if_false]
            omega

/-- The token scanned at a reachable state: where it starts and what it
is, by the characters left. -/
theorem Reachable_token (input : String) (s : Scanner) (hs : Reachable input s) :
    s.Scan.1.offset = s.offset ∧ s.Scan.1.pos = s.pos
      ∧ input.data.drop s.offset = s.rest ∧ s.offset + s.rest.length = input.length
      ∧ (s.rest = [] → s.Scan.1.kind = .eof)
      ∧ (∀ c cs, s.rest = c :: cs → isWhitespace c = true → s.Scan.1.kind = .whitespace)
      ∧ (∀ c cs, s.rest = c :: cs → isWhitespace c = false →
          s.Scan.1.kind ≠ .eof ∧ s.Scan.1.kind ≠ .whitespace
          ∧ s.Scan.1.lit.data ≠ [] ∧ s.Scan.1.lit.data <+: s.rest) := by
  obtain ⟨consumed, hin, hoff, _⟩ := Reachable_inv input s hs
  have hdrop : input.data.drop s.offset = s.rest := by
    rw [hin, hoff, List.drop_left]
  have hlen : s.offset + s.rest.length = input.length := by
    show _ = input.data.length
    rw [hin, hoff, List.length_append]
  cases hrest : s.rest with
  | nil =>
    rw [Scan_eof s hrest]
    refine ⟨rfl, rfl, by rw [hdrop, hrest], by rw [← hlen, hrest], fun _ => rfl, ?_, ?_⟩
    · intro c cs h; cases h
    · intro c cs h; cases h
  | cons c cs =>
    cases hw : isWhitespace c with
    | true =>
      rw [Scan_whitespace s c cs hrest hw]
      refine ⟨rfl, rfl, by rw [hdrop, hrest], by rw [← hlen, hrest], fun h => (by cases h),
        fun _ _ _ _ => rfl, ?_⟩
      intro c' cs' h hw'
      cases h
      rw [hw] at hw'; cases hw'
    | false =>
      obtain ⟨run, rest, kind, hne, hsplit, _, hk1, hk2, hscan⟩ := Scan_other s c cs hrest hw
      rw [hscan]
      refine ⟨rfl, rfl, by rw [hdrop, hrest], by rw [← hlen, hrest], fun h => (by cases h), ?_,
        ?_⟩
      · intro c' cs' h hw'
        cases h
        rw [hw] at hw'; cases hw'
      · intro c' cs' _ _
        exact ⟨hk1, hk2, hne, ⟨rest, hsplit.symm⟩⟩

/-- The cut of a name before its last `.`: the slice is defined, the rest
has no `.`, and no other cut has that property. -/
theorem LastIndex_cut (ns : String) (hdot : '.' ∈ ns.data) :
    ∃ parent seg : String,
      sliceTo ns (LastIndex ns) = some parent
      ∧ ns = parent ++ "." ++ seg
      ∧ '.' ∉ seg.data
      ∧ ∀ parent' seg' : String, ns = parent' ++ "." ++ seg' → '.' ∉ seg'.data →
          parent' = parent := by
  have h0 := (LastIndexDot_nonneg_iff ns.data).mpr hdot
  have h1 := LastIndexDot_lt ns.data
  obtain ⟨hsplit, hseg⟩ := LastIndexDot_split ns.data h0
  have hslice : sliceTo ns (LastIndex ns)
      = some ⟨ns.data.take (LastIndexDot ns.data).toNat⟩ := by
    simp only [sliceTo, LastIndex]
    rw [if_pos ⟨h0, le_of_lt h1⟩]
  refine ⟨⟨ns.data.take (LastIndexDot ns.data).toNat⟩,
    ⟨ns.data.drop ((LastIndexDot ns.data).toNat + 1)⟩, hslice, ?_, hseg, ?_⟩
  · apply String.ext
    simp only [String.data_append]
    rw [List.append_assoc]
    exact hsplit
  · intro parent' seg' hname hseg'
    have h := sliceTo_LastIndex_of_split ns parent' seg' hname hseg'
    rw [hslice] at h
    exact (Option.some.inj h).symm

/-! ## Properties of `Execute` -/

/-- C1: for every session user and every CreateNamespace statement whose
namespace is already in the store (`store.Get` returns no error), `Execute`
writes the single response `w.Success(NamespaceAlreadyExists, name)`, a
success and not a failure; the only calls made are `Namespaces()` and one
`Get(name)`, so neither `store.Create` nor `Namespace.CreateChild` is called,
and the executor state is unchanged. -/
theorem createNamespace_existing_is_idempotent (e : Executor N) (w : ResponseWriter)
    (user : User) (store : NamespaceStore N) (ns : N) (c : CreateNamespaceStatement)
    (huser : e.session.user = some user) (hstore : e.system.Namespaces = .ok store)
    (hget : store.Get c.Namespace = .ok ns) :
    (Execute e w (.CreateNamespace c)).w
        = w ++ [⟨true, .NamespaceAlreadyExists, c.Namespace, []⟩]
    ∧ (Execute e w (.CreateNamespace c)).calls = [.Namespaces, .Get c.Namespace]
    ∧ (∀ call ∈ (Execute e w (.CreateNamespace c)).calls, call.isMutation = false)
    ∧ (Execute e w (.CreateNamespace c)).e = e
    ∧ (Execute e w (.CreateNamespace c)).panicked = false := by
  simp [Execute, huser, Statement.NodeType, handleCreateNamespace,
    Statement.asCreateNamespaceStatement, Run.call, hstore, namespaceAlreadyExists, hget,
    Run.Success, Call.isMutation]

/-- C1 at a concrete input: the ordinary user issues `CREATE NAMESPACE acme`
against a store that holds `acme`. -/
theorem createNamespace_existing_is_idempotent_witness :
    (exampleExecutor (some exampleUser) ["acme"]).session.user = some exampleUser
    ∧ (exampleStore ["acme"]).Get "acme" = .ok "acme"
    ∧ (Execute (exampleExecutor (some exampleUser) ["acme"]) [] (.CreateNamespace ⟨"acme"⟩)).w
        = [⟨true, .NamespaceAlreadyExists, "acme", []⟩] :=
  ⟨rfl, rfl,
    (createNamespace_existing_is_idempotent (exampleExecutor (some exampleUser) ["acme"]) []
      exampleUser (exampleStore ["acme"]) "acme" ⟨"acme"⟩ rfl rfl rfl).1⟩

/-- C2, as stated, fails: the admin issues `CREATE NAMESPACE acme.example`
against an empty store.  The namespace is not in the store, yet the response
is `InternalServerError` ("parent namespace does not exist"), not `OK`, and
no creation call is made. -/
theorem admin_createChild_without_parent_is_refused :
    exampleAdmin.IsAdmin = true
    ∧ (exampleStore []).Get "acme.example" = .error .ErrNamespaceDoesNotExist
    ∧ (Execute (exampleExecutor (some exampleAdmin) []) []
          (.CreateNamespace ⟨"acme.example"⟩)).w
        = [⟨false, .InternalServerError, "parent namespace does not exist", []⟩]
    ∧ (Execute (exampleExecutor (some exampleAdmin) []) []
          (.CreateNamespace ⟨"acme.example"⟩)).calls
        = [.Namespaces, .Get "acme.example", .Get "acme"] :=
  ⟨rfl, rfl, by decide, by decide⟩

/-- C2, amended: for every admin user and every CreateNamespace statement
whose namespace is not in the store (`Get` returns an error):
for a root namespace `Execute` calls `store.Create` and responds `OK` when
that call returns no error, `CreateNamespaceError` when it fails; for a child
namespace whose parent is in the store `Execute` calls `CreateChild` on the
parent, with no permission check, and responds `OK` when that call returns no
error, `CreateNamespaceError` when it fails; for a child whose parent lookup
fails `Execute` responds `InternalServerError` and creates nothing. -/
theorem admin_createNamespace (e : Executor N) (w : ResponseWriter) (user : User)
    (store : NamespaceStore N) (c : CreateNamespaceStatement) (err : Error)
    (huser : e.session.user = some user) (hadmin : user.IsAdmin = true)
    (hstore : e.system.Namespaces = .ok store)
    (habsent : store.Get c.Namespace = .error err) :
    ('.' ∉ c.Namespace.data →
        (Execute e w (.CreateNamespace c)).calls
            = [.Namespaces, .Get c.Namespace, .Get c.Namespace, .Create c.Namespace]
        ∧ ((∃ n, store.Create c.Namespace = .ok n) →
            (Execute e w (.CreateNamespace c)).w = w ++ [⟨true, .OK, "namespace created", []⟩])
        ∧ ((∃ cerr, store.Create c.Namespace = .error cerr) →
            (Execute e w (.CreateNamespace c)).w
              = w ++ [⟨false, .CreateNamespaceError, "could not create namespace '%s'",
                       [c.Namespace]⟩]))
    ∧ (∀ parent seg : String, c.Namespace = parent ++ "." ++ seg → '.' ∉ seg.data →
        (∀ p, store.Get parent = .ok p →
            (Execute e w (.CreateNamespace c)).calls
                = [.Namespaces, .Get c.Namespace, .Get parent, .CreateChild p c.Namespace]
            ∧ ((∃ n, e.system.namespaceMethods.CreateChild p c.Namespace = .ok n) →
                (Execute e w (.CreateNamespace c)).w
                  = w ++ [⟨true, .OK, "namespace created", []⟩])
            ∧ ((∃ cerr, e.system.namespaceMethods.CreateChild p c.Namespace = .error cerr) →
                (Execute e w (.CreateNamespace c)).w
                  = w ++ [⟨false, .CreateNamespaceError, "cannot create namespace '%s'",
                           [c.Namespace]⟩]))
        ∧ (∀ perr, store.Get parent = .error perr →
            (Execute e w (.CreateNamespace c)).calls
                = [.Namespaces, .Get c.Namespace, .Get parent]
            ∧ (Execute e w (.CreateNamespace c)).w
                = w ++ [⟨false, .InternalServerError, "parent namespace does not exist", []⟩])) := by
  refine ⟨?_, ?_⟩
  · intro hroot
    have hr : c.IsRootNamespace = true := by
      simpa [CreateNamespaceStatement.IsRootNamespace, CreateNamespaceStatement.Namespace]
        using hroot
    refine ⟨?_, ?_, ?_⟩
    · cases hc : store.Create c.Namespace <;>
        simp [Execute, huser, Statement.NodeType, handleCreateNamespace,
          Statement.asCreateNamespaceStatement, Run.call, hstore, namespaceAlreadyExists,
          habsent, hr, handleCreateRootNamespace, hadmin, Run.Fail, Run.Success, hc]
    · rintro ⟨n, hc⟩
      simp [Execute, huser, Statement.NodeType, handleCreateNamespace,
        Statement.asCreateNamespaceStatement, Run.call, hstore, namespaceAlreadyExists,
        habsent, hr, handleCreateRootNamespace, hadmin, Run.Success, hc]
    · rintro ⟨cerr, hc⟩
      simp [Execute, huser, Statement.NodeType, handleCreateNamespace,
        Statement.asCreateNamespaceStatement, Run.call, hstore, namespaceAlreadyExists,
        habsent, hr, handleCreateRootNamespace, hadmin, Run.Fail, hc]
  · intro parent seg hname hseg
    have hr : c.IsRootNamespace = false := IsRootNamespace_of_split c parent seg hname
    have hs := sliceTo_LastIndex_of_split c.Namespace parent seg hname hseg
    refine ⟨?_, ?_⟩
    · intro p hp
      refine ⟨?_, ?_, ?_⟩
      · cases hc : e.system.namespaceMethods.CreateChild p c.Namespace <;>
          simp [Execute, huser, Statement.NodeType, handleCreateNamespace,
            Statement.asCreateNamespaceStatement, Run.call, hstore, namespaceAlreadyExists,
            habsent, hr, hs, hadmin, createChildOf, hp, Run.Fail, Run.Success, hc]
      · rintro ⟨n, hc⟩
        simp [Execute, huser, Statement.NodeType, handleCreateNamespace,
          Statement.asCreateNamespaceStatement, Run.call, hstore, namespaceAlreadyExists,
          habsent, hr, hs, hadmin, createChildOf, hp, Run.Success, hc]
      · rintro ⟨cerr, hc⟩
        simp [Execute, huser, Statement.NodeType, handleCreateNamespace,
          Statement.asCreateNamespaceStatement, Run.call, hstore, namespaceAlreadyExists,
          habsent, hr, hs, hadmin, createChildOf, hp, Run.Fail, hc]
    · intro perr hp
      simp [Execute, huser, Statement.NodeType, handleCreateNamespace,
        Statement.asCreateNamespaceStatement, Run.call, hstore, namespaceAlreadyExists,
        habsent, hr, hs, hadmin, createChildOf, hp, Run.Fail]

/-- C2 (amended) at a concrete input: the admin issues
`CREATE NAMESPACE acme.example` against a store that holds `acme`. -/
theorem admin_createNamespace_witness :
    exampleAdmin.IsAdmin = true
    ∧ (exampleStore ["acme"]).Get "acme.example" = .error .ErrNamespaceDoesNotExist
    ∧ (Execute (exampleExecutor (some exampleAdmin) ["acme"]) []
          (.CreateNamespace ⟨"acme.example"⟩)).w
        = [⟨true, .OK, "namespace created", []⟩] :=
  ⟨rfl, rfl,
    (((admin_createNamespace (exampleExecutor (some exampleAdmin) ["acme"]) [] exampleAdmin
        (exampleStore ["acme"]) ⟨"acme.example"⟩ .ErrNamespaceDoesNotExist rfl rfl rfl rfl).2
        "acme" "example" (by decide) (by decide)).1 "acme" rfl).2.1 ⟨"acme.example", rfl⟩⟩

/-- C3: for every non-admin user, whatever `Roles` and `Namespaces` return,
and every CreateNamespace statement for a root namespace (no `.` in the name)
that is not in the store (`Get` returns an error), `Execute` writes the single
response `w.Fail(Unauthorized, ...)`; the only calls made are `Namespaces()`
and two `Get(name)`, so neither `store.Create` nor `Namespace.CreateChild` is
called. -/
theorem createRootNamespace_non_admin_unauthorized (e : Executor N) (w : ResponseWriter)
    (user : User) (store : NamespaceStore N) (c : CreateNamespaceStatement) (err : Error)
    (huser : e.session.user = some user) (hadmin : user.IsAdmin = false)
    (hstore : e.system.Namespaces = .ok store)
    (hroot : '.' ∉ c.Namespace.data)
    (habsent : store.Get c.Namespace = .error err) :
    (Execute e w (.CreateNamespace c)).w
        = w ++ [⟨false, .Unauthorized,
                 "root namespaces can only be created by the admin account", []⟩]
    ∧ (Execute e w (.CreateNamespace c)).calls
        = [.Namespaces, .Get c.Namespace, .Get c.Namespace]
    ∧ (∀ call ∈ (Execute e w (.CreateNamespace c)).calls, call.isMutation = false)
    ∧ (Execute e w (.CreateNamespace c)).e = e
    ∧ (Execute e w (.CreateNamespace c)).panicked = false := by
  have hr : c.IsRootNamespace = true := by
    simpa [CreateNamespaceStatement.IsRootNamespace, CreateNamespaceStatement.Namespace]
      using hroot
  simp [Execute, huser, Statement.NodeType, handleCreateNamespace,
    Statement.asCreateNamespaceStatement, Run.call, hstore, namespaceAlreadyExists, habsent,
    hr, handleCreateRootNamespace, hadmin, Run.Fail, Call.isMutation]

/-- C3 at a concrete input: the ordinary user, who holds the role `creator`
in `acme`, issues `CREATE NAMESPACE other` against a store that holds `acme`. -/
theorem createRootNamespace_non_admin_unauthorized_witness :
    exampleUser.IsAdmin = false
    ∧ '.' ∉ "other".data
    ∧ (exampleStore ["acme"]).Get "other" = .error .ErrNamespaceDoesNotExist
    ∧ (Execute (exampleExecutor (some exampleUser) ["acme"]) [] (.CreateNamespace ⟨"other"⟩)).w
        = [⟨false, .Unauthorized,
            "root namespaces can only be created by the admin account", []⟩] :=
  ⟨rfl, by decide, rfl,
    (createRootNamespace_non_admin_unauthorized (exampleExecutor (some exampleUser) ["acme"]) []
      exampleUser (exampleStore ["acme"]) ⟨"other"⟩ .ErrNamespaceDoesNotExist rfl rfl rfl
      (by decide) rfl).1⟩

/-- C4: for every non-admin user and every CreateNamespace statement for a
child namespace `ns = parent.seg` that is not in the store while `parent` is:
`Execute` calls `CreateChild(ns)` on the parent if and only if some role in
`user.Roles(parent)` satisfies `parent.HasPermission(role, required
permission)`; in that case it responds `OK` when `CreateChild` returns no
error; otherwise it writes `w.Fail(Unauthorized, "cannot create namespace
'%s'", ns)` and makes no `Create` or `CreateChild` call. -/
theorem createChild_non_admin_authorized_iff_role_grants (e : Executor N)
    (w : ResponseWriter) (user : User) (store : NamespaceStore N)
    (c : CreateNamespaceStatement) (parent seg : String) (err : Error) (p : N)
    (huser : e.session.user = some user) (hadmin : user.IsAdmin = false)
    (hstore : e.system.Namespaces = .ok store)
    (habsent : store.Get c.Namespace = .error err)
    (hname : c.Namespace = parent ++ "." ++ seg) (hseg : '.' ∉ seg.data)
    (hparent : store.Get parent = .ok p) :
    (Call.CreateChild p c.Namespace ∈ (Execute e w (.CreateNamespace c)).calls
        ↔ ∃ role ∈ user.Roles parent,
            e.system.namespaceMethods.HasPermission p role c.RequiredPermissions = true)
    ∧ ((∃ role ∈ user.Roles parent,
            e.system.namespaceMethods.HasPermission p role c.RequiredPermissions = true) →
        (Execute e w (.CreateNamespace c)).calls
            = [.Namespaces, .Get c.Namespace, .Get parent]
              ++ (user.Roles parent).map
                  (fun role => Call.HasPermission p role c.RequiredPermissions)
              ++ [.CreateChild p c.Namespace]
        ∧ ((∃ n, e.system.namespaceMethods.CreateChild p c.Namespace = .ok n) →
            (Execute e w (.CreateNamespace c)).w
              = w ++ [⟨true, .OK, "namespace created", []⟩]))
    ∧ ((¬ ∃ role ∈ user.Roles parent,
            e.system.namespaceMethods.HasPermission p role c.RequiredPermissions = true) →
        (Execute e w (.CreateNamespace c)).w
            = w ++ [⟨false, .Unauthorized, "cannot create namespace '%s'", [c.Namespace]⟩]
        ∧ (∀ call ∈ (Execute e w (.CreateNamespace c)).calls, call.isMutation = false)) := by
  have hr : c.IsRootNamespace = false := IsRootNamespace_of_split c parent seg hname
  have hs := sliceTo_LastIndex_of_split c.Namespace parent seg hname hseg
  have hscan := scanRoles_eq e.system.namespaceMethods p c.RequiredPermissions false
    (user.Roles parent)
  by_cases hgrant : ∃ role ∈ user.Roles parent,
      e.system.namespaceMethods.HasPermission p role c.RequiredPermissions = true
  · have hany : (user.Roles parent).any
        (fun role => e.system.namespaceMethods.HasPermission p role c.RequiredPermissions)
        = true := by
      simpa [List.any_eq_true] using hgrant
    have hcalls : (Execute e w (.CreateNamespace c)).calls
            = [.Namespaces, .Get c.Namespace, .Get parent]
              ++ (user.Roles parent).map
                  (fun role => Call.HasPermission p role c.RequiredPermissions)
              ++ [.CreateChild p c.Namespace] := by
      cases hc : e.system.namespaceMethods.CreateChild p c.Namespace <;>
        simp [Execute, huser, Statement.NodeType, handleCreateNamespace,
          Statement.asCreateNamespaceStatement, Run.call, hstore, namespaceAlreadyExists,
          habsent, hr, hs, hadmin, hparent, hscan, hany, createChildOf, Run.Fail,
          Run.Success, hc]
    refine ⟨⟨fun _ => hgrant, fun _ => ?_⟩, fun _ => ⟨hcalls, ?_⟩, fun hn => absurd hgrant hn⟩
    · rw [hcalls]; simp
    · rintro ⟨n, hc⟩
      simp [Execute, huser, Statement.NodeType, handleCreateNamespace,
        Statement.asCreateNamespaceStatement, Run.call, hstore, namespaceAlreadyExists,
        habsent, hr, hs, hadmin, hparent, hscan, hany, createChildOf, Run.Success, hc]
  · have hany : (user.Roles parent).any
        (fun role => e.system.namespaceMethods.HasPermission p role c.RequiredPermissions)
        = false := by
      rw [Bool.eq_false_iff]
      intro h
      exact hgrant (by simpa [List.any_eq_true] using h)
    have hcalls : (Execute e w (.CreateNamespace c)).calls
            = [.Namespaces, .Get c.Namespace, .Get parent]
              ++ (user.Roles parent).map
                  (fun role => Call.HasPermission p role c.RequiredPermissions) := by
      simp [Execute, huser, Statement.NodeType, handleCreateNamespace,
        Statement.asCreateNamespaceStatement, Run.call, hstore, namespaceAlreadyExists,
        habsent, hr, hs, hadmin, hparent, hscan, hany, Run.Fail]
    refine ⟨⟨fun hmem => ?_, fun h => absurd h hgrant⟩, fun h => absurd h hgrant, fun _ => ⟨?_, ?_⟩⟩
    · rw [hcalls] at hmem
      simp at hmem
    · simp [Execute, huser, Statement.NodeType, handleCreateNamespace,
        Statement.asCreateNamespaceStatement, Run.call, hstore, namespaceAlreadyExists,
        habsent, hr, hs, hadmin, hparent, hscan, hany, Run.Fail]
    · rw [hcalls]
      intro call hmem
      simp only [List.mem_append, List.mem_cons, List.mem_map, List.mem_singleton,
        List.not_mem_nil, or_false] at hmem
      rcases hmem with (h | h | h) | ⟨role, _, h⟩ <;> subst h <;> rfl

/-- C4 at a concrete input: the ordinary user, who holds the role `creator`
in `acme`, issues `CREATE NAMESPACE acme.example` against a store that holds
`acme`. -/
theorem createChild_non_admin_authorized_iff_role_grants_witness :
    exampleUser.IsAdmin = false
    ∧ (exampleStore ["acme"]).Get "acme.example" = .error .ErrNamespaceDoesNotExist
    ∧ (exampleStore ["acme"]).Get "acme" = .ok "acme"
    ∧ Call.CreateChild "acme" "acme.example"
        ∈ (Execute (exampleExecutor (some exampleUser) ["acme"]) []
            (.CreateNamespace ⟨"acme.example"⟩)).calls :=
  ⟨rfl, rfl, rfl,
    (createChild_non_admin_authorized_iff_role_grants
      (exampleExecutor (some exampleUser) ["acme"]) [] exampleUser (exampleStore ["acme"])
      ⟨"acme.example"⟩ "acme" "example" .ErrNamespaceDoesNotExist "acme" rfl rfl rfl rfl
      (by decide) (by decide) rfl).1.mpr ⟨"creator", by decide, by decide⟩⟩

/-- C5: for every non-admin user, whatever `Roles` returns, and every
CreateNamespace statement for a child namespace `ns = parent.seg` (`seg`
without `.`, so `parent` is `ns` with its last `.seg` removed) that is not in
the store and whose parent lookup returns `ErrNamespaceDoesNotExist`,
`Execute` writes the single response `w.Fail(NamespaceDoesNotExist, parent)`;
the calls are `Namespaces()`, `Get(ns)`, `Get(parent)`, so the store is not
mutated. -/
theorem createChild_non_admin_missing_parent (e : Executor N) (w : ResponseWriter)
    (user : User) (store : NamespaceStore N) (c : CreateNamespaceStatement)
    (parent seg : String) (err : Error)
    (huser : e.session.user = some user) (hadmin : user.IsAdmin = false)
    (hstore : e.system.Namespaces = .ok store)
    (habsent : store.Get c.Namespace = .error err)
    (hname : c.Namespace = parent ++ "." ++ seg) (hseg : '.' ∉ seg.data)
    (hparent : store.Get parent = .error .ErrNamespaceDoesNotExist) :
    (Execute e w (.CreateNamespace c)).w
        = w ++ [⟨false, .NamespaceDoesNotExist, parent, []⟩]
    ∧ (Execute e w (.CreateNamespace c)).calls
        = [.Namespaces, .Get c.Namespace, .Get parent]
    ∧ (∀ call ∈ (Execute e w (.CreateNamespace c)).calls, call.isMutation = false)
    ∧ (Execute e w (.CreateNamespace c)).e = e
    ∧ (Execute e w (.CreateNamespace c)).panicked = false := by
  have hr : c.IsRootNamespace = false := IsRootNamespace_of_split c parent seg hname
  have hs := sliceTo_LastIndex_of_split c.Namespace parent seg hname hseg
  simp [Execute, huser, Statement.NodeType, handleCreateNamespace,
    Statement.asCreateNamespaceStatement, Run.call, hstore, namespaceAlreadyExists, habsent,
    hr, hs, hadmin, hparent, Run.Fail, Call.isMutation]

/-- C5 at a concrete input: the ordinary user issues
`CREATE NAMESPACE corp.example` against a store that holds only `acme`. -/
theorem createChild_non_admin_missing_parent_witness :
    exampleUser.IsAdmin = false
    ∧ (exampleStore ["acme"]).Get "corp.example" = .error .ErrNamespaceDoesNotExist
    ∧ (exampleStore ["acme"]).Get "corp" = .error .ErrNamespaceDoesNotExist
    ∧ (Execute (exampleExecutor (some exampleUser) ["acme"]) []
          (.CreateNamespace ⟨"corp.example"⟩)).w
        = [⟨false, .NamespaceDoesNotExist, "corp", []⟩] :=
  ⟨rfl, rfl, rfl,
    (createChild_non_admin_missing_parent (exampleExecutor (some exampleUser) ["acme"]) []
      exampleUser (exampleStore ["acme"]) ⟨"corp.example"⟩ "corp" "example"
      .ErrNamespaceDoesNotExist rfl rfl rfl rfl (by decide) (by decide) rfl).1⟩

/-- C6: for every Use statement whose namespace `ns` is in the store:
`Execute` writes the single response `w.Success(OK, "")` and sets the
session namespace to `ns` if and only if the user is admin or `ns` is an
element of `user.Namespaces()`; in every other case it writes the single
response `w.Fail(Unauthorized, "")` and leaves the executor, hence the
session namespace, unchanged. -/
theorem use_existing_ok_iff_admin_or_granted (e : Executor N) (w : ResponseWriter)
    (user : User) (store : NamespaceStore N) (u : UseStatement) (ns : N)
    (huser : e.session.user = some user) (hstore : e.system.Namespaces = .ok store)
    (hget : store.Get u.Namespace = .ok ns) :
    (((Execute e w (.Use u)).w = w ++ [⟨true, .OK, "", []⟩]
        ∧ (Execute e w (.Use u)).e.session.namespace_ = u.Namespace)
      ↔ (user.IsAdmin = true ∨ u.Namespace ∈ user.Namespaces))
    ∧ (¬ (user.IsAdmin = true ∨ u.Namespace ∈ user.Namespaces) →
        (Execute e w (.Use u)).w = w ++ [⟨false, .Unauthorized, "", []⟩]
        ∧ (Execute e w (.Use u)).e = e) := by
  have hrun : Execute e w (.Use u)
      = if user.IsAdmin = true then
          (Run.selectNamespace ⟨e, w, [.Namespaces, .Get u.Namespace], false⟩
            u.Namespace).Success .OK "" []
        else useScan ⟨e, w, [.Namespaces, .Get u.Namespace], false⟩ u.Namespace
          user.Namespaces := by
    simp [Execute, huser, Statement.NodeType, handleUseStatement, Statement.asUseStatement,
      Run.call, hstore, hget]
  by_cases hok : user.IsAdmin = true ∨ u.Namespace ∈ user.Namespaces
  · have hsel : Execute e w (.Use u)
        = (Run.selectNamespace ⟨e, w, [.Namespaces, .Get u.Namespace], false⟩
            u.Namespace).Success .OK "" [] := by
      rw [hrun]
      by_cases ha : user.IsAdmin = true
      · rw [if_pos ha]
      · rw [if_neg ha]
        exact useScan_of_mem _ _ _ (hok.resolve_left ha)
    refine ⟨⟨fun _ => hok, fun _ => ?_⟩, fun h => absurd hok h⟩
    rw [hsel]
    simp [Run.selectNamespace, Run.Success]
  · have ha : ¬ user.IsAdmin = true := fun h => hok (Or.inl h)
    have hm : u.Namespace ∉ user.Namespaces := fun h => hok (Or.inr h)
    have hfail : Execute e w (.Use u)
        = Run.Fail ⟨e, w, [.Namespaces, .Get u.Namespace], false⟩ .Unauthorized "" [] := by
      rw [hrun, if_neg ha]
      exact useScan_of_not_mem _ _ _ hm
    refine ⟨⟨fun h => ?_, fun h => absurd h hok⟩, fun _ => ?_⟩
    · rw [hfail] at h
      simp [Run.Fail] at h
    · rw [hfail]
      simp [Run.Fail]

/-- C6 at a concrete input: the scenario of the specification, the admin
issues `USE acme.example` against a store that holds `acme.example`. -/
theorem use_existing_ok_iff_admin_or_granted_witness :
    (exampleStore ["acme.example"]).Get "acme.example" = .ok "acme.example"
    ∧ (Execute (exampleExecutor (some exampleAdmin) ["acme.example"]) []
          (.Use ⟨"acme.example"⟩)).w = [⟨true, .OK, "", []⟩]
    ∧ (Execute (exampleExecutor (some exampleAdmin) ["acme.example"]) []
          (.Use ⟨"acme.example"⟩)).e.session.namespace_ = "acme.example" :=
  ⟨rfl,
    (use_existing_ok_iff_admin_or_granted (exampleExecutor (some exampleAdmin) ["acme.example"])
      [] exampleAdmin (exampleStore ["acme.example"]) ⟨"acme.example"⟩ "acme.example"
      rfl rfl rfl).1.mpr (Or.inl rfl)⟩

/-- C7: for every user, admins and users that list `ns` among their
namespaces included, and every Use statement whose lookup returns
`ErrNamespaceDoesNotExist`, `Execute` writes the single response
`w.Fail(NamespaceDoesNotExist, ns)` and leaves the executor, hence the session
namespace, unchanged. -/
theorem use_missing_namespace (e : Executor N) (w : ResponseWriter) (user : User)
    (store : NamespaceStore N) (u : UseStatement)
    (huser : e.session.user = some user) (hstore : e.system.Namespaces = .ok store)
    (hget : store.Get u.Namespace = .error .ErrNamespaceDoesNotExist) :
    (Execute e w (.Use u)).w = w ++ [⟨false, .NamespaceDoesNotExist, u.Namespace, []⟩]
    ∧ (Execute e w (.Use u)).e.session.namespace_ = e.session.namespace_
    ∧ (Execute e w (.Use u)).e = e
    ∧ (Execute e w (.Use u)).calls = [.Namespaces, .Get u.Namespace]
    ∧ (Execute e w (.Use u)).panicked = false := by
  simp [Execute, huser, Statement.NodeType, handleUseStatement, Statement.asUseStatement,
    Run.call, hstore, hget, Run.Fail]

/-- C7 at a concrete input: the ordinary user, who lists `acme` among their
namespaces, issues `USE acme` against an empty store. -/
theorem use_missing_namespace_witness :
    "acme" ∈ exampleUser.Namespaces
    ∧ (exampleStore []).Get "acme" = .error .ErrNamespaceDoesNotExist
    ∧ (Execute (exampleExecutor (some exampleUser) []) [] (.Use ⟨"acme"⟩)).w
        = [⟨false, .NamespaceDoesNotExist, "acme", []⟩] :=
  ⟨by decide, rfl,
    (use_missing_namespace (exampleExecutor (some exampleUser) []) [] exampleUser
      (exampleStore []) ⟨"acme"⟩ rfl rfl rfl).1⟩

/-- C8, as stated, fails: the admin issues `DROP NAMESPACE acme` and then
`SHOW NAMESPACES` against a store that holds `acme`.  The session carries a
user, yet `Execute` writes no response at all: its switch has no branch for
these statements. -/
theorem execute_drop_and_show_write_nothing :
    (exampleExecutor (some exampleAdmin) ["acme"]).session.user.isSome = true
    ∧ (Execute (exampleExecutor (some exampleAdmin) ["acme"]) []
          (.DropNamespace ⟨"acme"⟩)).w = []
    ∧ (Execute (exampleExecutor (some exampleAdmin) ["acme"]) []
          (.ShowNamespaces ⟨⟩)).w = [] :=
  ⟨rfl, by decide, by decide⟩

/-- C8, amended: for every session carrying a user, `Execute` writes exactly
one response for every Use statement and for every CreateNamespace statement,
and does not panic; DropNamespace and ShowNamespaces statements are not
dispatched: for them `Execute` writes no response, makes no call and leaves
the executor unchanged. -/
theorem execute_writes_one_response_when_dispatched (e : Executor N) (w : ResponseWriter)
    (user : User) (huser : e.session.user = some user) :
    (∀ u : UseStatement, ∃ resp,
        (Execute e w (.Use u)).w = w ++ [resp] ∧ (Execute e w (.Use u)).panicked = false)
    ∧ (∀ c : CreateNamespaceStatement, ∃ resp,
        (Execute e w (.CreateNamespace c)).w = w ++ [resp]
        ∧ (Execute e w (.CreateNamespace c)).panicked = false)
    ∧ (∀ d : DropNamespaceStatement,
        (Execute e w (.DropNamespace d)).w = w ∧ (Execute e w (.DropNamespace d)).calls = []
        ∧ (Execute e w (.DropNamespace d)).e = e)
    ∧ (∀ sh : ShowNamespacesStatement,
        (Execute e w (.ShowNamespaces sh)).w = w ∧ (Execute e w (.ShowNamespaces sh)).calls = []
        ∧ (Execute e w (.ShowNamespaces sh)).e = e) := by
  refine ⟨fun u => ?_, fun c => ?_, fun d => ?_, fun sh => ?_⟩
  · have h := handleUseStatement_writes_one (⟨e, w, [], false⟩ : Run N) (.Use u) user huser
    simpa [Execute, huser, Statement.NodeType] using h
  · have h := handleCreateNamespace_writes_one (⟨e, w, [], false⟩ : Run N)
      (.CreateNamespace c) user huser
    simpa [Execute, huser, Statement.NodeType] using h
  · simp [Execute, huser, Statement.NodeType]
  · simp [Execute, huser, Statement.NodeType]

/-- C8 (amended) at a concrete input: the ordinary user issues `USE acme`
against a store that holds `acme`. -/
theorem execute_writes_one_response_when_dispatched_witness :
    (exampleExecutor (some exampleUser) ["acme"]).session.user = some exampleUser
    ∧ ∃ resp, (Execute (exampleExecutor (some exampleUser) ["acme"]) [] (.Use ⟨"acme"⟩)).w
          = [] ++ [resp]
        ∧ (Execute (exampleExecutor (some exampleUser) ["acme"]) [] (.Use ⟨"acme"⟩)).panicked
          = false :=
  ⟨rfl,
    (execute_writes_one_response_when_dispatched (exampleExecutor (some exampleUser) ["acme"])
      [] exampleUser rfl).1 ⟨"acme"⟩⟩

/-- C9: for every statement, when the session carries no user `Execute`
writes the single response `w.Fail(InternalServerError, "could not determine
session user")` and makes no call at all on the system, the namespace store
or a namespace; the executor is unchanged. -/
theorem execute_without_user (e : Executor N) (w : ResponseWriter) (stmt : Statement)
    (huser : e.session.user = none) :
    (Execute e w stmt).w
        = w ++ [⟨false, .InternalServerError, "could not determine session user", []⟩]
    ∧ (Execute e w stmt).calls = []
    ∧ (Execute e w stmt).e = e
    ∧ (Execute e w stmt).panicked = false := by
  simp [Execute, huser, Run.Fail]

/-- C9 at a concrete input: `CREATE NAMESPACE acme` in a session without a
user. -/
theorem execute_without_user_witness :
    (exampleExecutor none []).session.user = none
    ∧ (Execute (exampleExecutor none []) [] (.CreateNamespace ⟨"acme"⟩)).w
        = [⟨false, .InternalServerError, "could not determine session user", []⟩]
    ∧ (Execute (exampleExecutor none []) [] (.CreateNamespace ⟨"acme"⟩)).calls = [] :=
  ⟨rfl,
    (execute_without_user (exampleExecutor none []) [] (.CreateNamespace ⟨"acme"⟩) rfl).1,
    (execute_without_user (exampleExecutor none []) [] (.CreateNamespace ⟨"acme"⟩) rfl).2.1⟩

/-- C10, the code at the failing input: the admin issues
`CREATE NAMESPACE acme` while every `Get` of the store fails with an error
that is not `ErrNamespaceDoesNotExist`.  `namespaceAlreadyExists` reads the
failure as "not there": the response is `OK`, not `InternalServerError`, and
`store.Create("acme")` is called after the two failed lookups. -/
theorem createNamespace_after_failed_lookup_creates :
    unreachableStore.Get "acme" = .error (.other "connection refused")
    ∧ (Execute (unreachableExecutor (some exampleAdmin)) [] (.CreateNamespace ⟨"acme"⟩)).w
        = [⟨true, .OK, "namespace created", []⟩]
    ∧ (Execute (unreachableExecutor (some exampleAdmin)) [] (.CreateNamespace ⟨"acme"⟩)).calls
        = [.Namespaces, .Get "acme", .Get "acme", .Create "acme"] :=
  ⟨rfl, by decide, by decide⟩

/-- C11: the session namespace is changed only by a Use execution that
responds `OK`.  For every executor state: after `Execute` on a CreateNamespace
statement the session namespace equals its value before the call; `Execute`
on a Use statement writes one response, and when its status is `OK` the
session namespace equals the namespace of the statement, while for any other
status it equals its value before the call. -/
theorem session_namespace_changes_only_on_use_ok (e : Executor N) (w : ResponseWriter) :
    (∀ c : CreateNamespaceStatement,
        (Execute e w (.CreateNamespace c)).e.session.namespace_ = e.session.namespace_)
    ∧ (∀ u : UseStatement, ∃ resp,
        (Execute e w (.Use u)).w = w ++ [resp]
        ∧ (resp.status = .OK →
            (Execute e w (.Use u)).e.session.namespace_ = u.Namespace)
        ∧ (resp.status ≠ .OK →
            (Execute e w (.Use u)).e.session.namespace_ = e.session.namespace_)) := by
  refine ⟨fun c => ?_, fun u => ?_⟩
  · cases hu : e.session.user with
    | none => simp [Execute, hu, Run.Fail]
    | some user =>
      have h := handleCreateNamespace_e (⟨e, w, [], false⟩ : Run N) (.CreateNamespace c)
      simp only [Execute, hu, Statement.NodeType]
      rw [h]
  · cases hu : e.session.user with
    | none =>
      refine ⟨⟨false, .InternalServerError, "could not determine session user", []⟩, ?_, ?_, ?_⟩
      · simp [Execute, hu, Run.Fail]
      · intro h; cases h
      · intro _; simp [Execute, hu, Run.Fail]
    | some user =>
      obtain ⟨resp, h1, h2, h3⟩ :=
        handleUseStatement_session (⟨e, w, [], false⟩ : Run N) u user hu
      refine ⟨resp, ?_, ?_, ?_⟩
      · simpa only [Execute, hu, Statement.NodeType] using h1
      · intro hok
        simpa only [Execute, hu, Statement.NodeType] using h2 hok
      · intro hno
        have := h3 hno
        simp only [Execute, hu, Statement.NodeType]
        rw [this]

/-- C11 at a concrete input: the ordinary user, in a session whose namespace
is still empty, issues `CREATE NAMESPACE acme.example` (granted) and the
session namespace stays empty. -/
theorem session_namespace_changes_only_on_use_ok_witness :
    (Execute (exampleExecutor (some exampleUser) ["acme"]) []
        (.CreateNamespace ⟨"acme.example"⟩)).e.session.namespace_ = "" :=
  (session_namespace_changes_only_on_use_ok (exampleExecutor (some exampleUser) ["acme"])
    []).1 ⟨"acme.example"⟩

/-- C13: for every CreateNamespace execution on a namespace `ns` that
contains a `.` and is not yet in the store, the parent name computed by
`handleCreateNamespace` is the name it looks up right after `ns`: the calls
of `Execute` begin with `Namespaces()`, `Get(ns)`, `Get(parent)`, and every
`Get` of the execution is on `ns` or on `parent`.  That `parent` is
`ns[:strings.LastIndex(ns, ".")]` and satisfies `ns = parent + "." + segment`
with no `.` in `segment`; it is the only such cut, so the parent is `ns` with
exactly its last dot-segment removed and the child name begins with the
parent name followed by `.`. -/
theorem parent_is_name_without_last_segment (e : Executor N) (w : ResponseWriter)
    (user : User) (store : NamespaceStore N) (c : CreateNamespaceStatement) (err : Error)
    (huser : e.session.user = some user) (hstore : e.system.Namespaces = .ok store)
    (habsent : store.Get c.Namespace = .error err) (hdot : '.' ∈ c.Namespace.data) :
    ∃ parent seg : String,
      sliceTo c.Namespace (LastIndex c.Namespace) = some parent
      ∧ c.Namespace = parent ++ "." ++ seg
      ∧ '.' ∉ seg.data
      ∧ (∀ parent' seg' : String, c.Namespace = parent' ++ "." ++ seg' → '.' ∉ seg'.data →
          parent' = parent)
      ∧ (∃ more, (Execute e w (.CreateNamespace c)).calls
          = [.Namespaces, .Get c.Namespace, .Get parent] ++ more
          ∧ ∀ name, Call.Get name ∉ more)
      ∧ (∀ name, Call.Get name ∈ (Execute e w (.CreateNamespace c)).calls →
          name = c.Namespace ∨ name = parent) := by
  obtain ⟨parent, seg, hsl, hname, hseg, huniq⟩ := LastIndex_cut c.Namespace hdot
  have hr : c.IsRootNamespace = false := IsRootNamespace_of_split c parent seg hname
  have hcalls : ∃ more, (Execute e w (.CreateNamespace c)).calls
      = [.Namespaces, .Get c.Namespace, .Get parent] ++ more
      ∧ ∀ name, Call.Get name ∉ more := by
    cases ha : user.IsAdmin with
    | true =>
      cases hg : store.Get parent with
      | error perr =>
        refine ⟨[], ?_, by simp⟩
        simp [Execute, huser, Statement.NodeType, handleCreateNamespace,
          Statement.asCreateNamespaceStatement, Run.call, hstore, namespaceAlreadyExists,
          habsent, hr, hsl, ha, createChildOf, hg, Run.Fail]
      | ok p =>
        refine ⟨[.CreateChild p c.Namespace], ?_, by simp⟩
        cases hc : e.system.namespaceMethods.CreateChild p c.Namespace <;>
          simp [Execute, huser, Statement.NodeType, handleCreateNamespace,
            Statement.asCreateNamespaceStatement, Run.call, hstore, namespaceAlreadyExists,
            habsent, hr, hsl, ha, createChildOf, hg, Run.Fail, Run.Success, hc]
    | false =>
      cases hg : store.Get parent with
      | error perr =>
        refine ⟨[], ?_, by simp⟩
        cases perr <;>
          simp [Execute, huser, Statement.NodeType, handleCreateNamespace,
            Statement.asCreateNamespaceStatement, Run.call, hstore, namespaceAlreadyExists,
            habsent, hr, hsl, ha, hg, Run.Fail]
      | ok p =>
        cases hscan : scanRoles e.system.namespaceMethods p c.RequiredPermissions false
            (user.Roles parent) with
        | false =>
          refine ⟨(user.Roles parent).map
              (fun role => Call.HasPermission p role c.RequiredPermissions), ?_, by simp⟩
          simp [Execute, huser, Statement.NodeType, handleCreateNamespace,
            Statement.asCreateNamespaceStatement, Run.call, hstore, namespaceAlreadyExists,
            habsent, hr, hsl, ha, hg, hscan, Run.Fail]
        | true =>
          refine ⟨(user.Roles parent).map
              (fun role => Call.HasPermission p role c.RequiredPermissions)
              ++ [.CreateChild p c.Namespace], ?_, by simp⟩
          cases hc : e.system.namespaceMethods.CreateChild p c.Namespace <;>
            simp [Execute, huser, Statement.NodeType, handleCreateNamespace,
              Statement.asCreateNamespaceStatement, Run.call, hstore, namespaceAlreadyExists,
              habsent, hr, hsl, ha, hg, hscan, createChildOf, Run.Fail, Run.Success, hc]
  refine ⟨parent, seg, hsl, hname, hseg, huniq, hcalls, ?_⟩
  obtain ⟨more, hmore, hnoget⟩ := hcalls
  intro name hmem
  rw [hmore] at hmem
  simp only [List.mem_append, List.mem_cons, List.not_mem_nil, or_false] at hmem
  rcases hmem with (h | h | h) | h
  · cases h
  · exact Or.inl (Call.Get.inj h)
  · exact Or.inr (Call.Get.inj h)
  · exact absurd h (hnoget name)

/-- C13 at a concrete input: the admin issues
`CREATE NAMESPACE acme.example.dynamite` against a store that holds
`acme.example`; the name looked up after `acme.example.dynamite` is its
parent `acme.example`. -/
theorem parent_is_name_without_last_segment_witness :
    (exampleStore ["acme.example"]).Get "acme.example.dynamite"
      = .error .ErrNamespaceDoesNotExist
    ∧ '.' ∈ "acme.example.dynamite".data
    ∧ ∃ parent seg : String,
      sliceTo "acme.example.dynamite" (LastIndex "acme.example.dynamite") = some parent
      ∧ "acme.example.dynamite" = parent ++ "." ++ seg
      ∧ '.' ∉ seg.data
      ∧ (∀ parent' seg' : String, "acme.example.dynamite" = parent' ++ "." ++ seg' →
          '.' ∉ seg'.data → parent' = parent)
      ∧ (∃ more, (Execute (exampleExecutor (some exampleAdmin) ["acme.example"]) []
            (.CreateNamespace ⟨"acme.example.dynamite"⟩)).calls
          = [.Namespaces, .Get "acme.example.dynamite", .Get parent] ++ more
          ∧ ∀ name, Call.Get name ∉ more)
      ∧ (∀ name, Call.Get name ∈ (Execute (exampleExecutor (some exampleAdmin)
            ["acme.example"]) [] (.CreateNamespace ⟨"acme.example.dynamite"⟩)).calls →
          name = "acme.example.dynamite" ∨ name = parent) :=
  ⟨rfl, by decide,
    parent_is_name_without_last_segment (exampleExecutor (some exampleAdmin) ["acme.example"])
      [] exampleAdmin (exampleStore ["acme.example"]) ⟨"acme.example.dynamite"⟩
      .ErrNamespaceDoesNotExist rfl rfl rfl (by decide)⟩

/-- C14: for every CreateNamespace execution on a namespace not yet in the
store that passes authorization: for a root namespace and an admin, the
response is `CreateNamespaceError` when `store.Create` returns an error and
`OK` when it returns none; for a child `ns = parent.seg` whose parent is in
the store, and a user who is admin or holds a role that grants the required
permission on the parent, the response is `CreateNamespaceError` when
`parent.CreateChild(ns)` returns an error and `OK` when it returns none. -/
theorem createNamespace_authorized_outcome (e : Executor N) (w : ResponseWriter)
    (user : User) (store : NamespaceStore N) (c : CreateNamespaceStatement) (err : Error)
    (huser : e.session.user = some user) (hstore : e.system.Namespaces = .ok store)
    (habsent : store.Get c.Namespace = .error err) :
    ('.' ∉ c.Namespace.data → user.IsAdmin = true →
        ((∃ cerr, store.Create c.Namespace = .error cerr) →
            ∃ format args, (Execute e w (.CreateNamespace c)).w
              = w ++ [⟨false, .CreateNamespaceError, format, args⟩])
        ∧ ((∃ n, store.Create c.Namespace = .ok n) →
            (Execute e w (.CreateNamespace c)).w = w ++ [⟨true, .OK, "namespace created", []⟩]))
    ∧ (∀ (parent seg : String) (p : N), c.Namespace = parent ++ "." ++ seg →
        '.' ∉ seg.data → store.Get parent = .ok p →
        (user.IsAdmin = true ∨ ∃ role ∈ user.Roles parent,
            e.system.namespaceMethods.HasPermission p role c.RequiredPermissions = true) →
        ((∃ cerr, e.system.namespaceMethods.CreateChild p c.Namespace = .error cerr) →
            ∃ format args, (Execute e w (.CreateNamespace c)).w
              = w ++ [⟨false, .CreateNamespaceError, format, args⟩])
        ∧ ((∃ n, e.system.namespaceMethods.CreateChild p c.Namespace = .ok n) →
            (Execute e w (.CreateNamespace c)).w
              = w ++ [⟨true, .OK, "namespace created", []⟩])) := by
  refine ⟨?_, ?_⟩
  · intro hroot hadmin
    have hr : c.IsRootNamespace = true := by
      simpa [CreateNamespaceStatement.IsRootNamespace, CreateNamespaceStatement.Namespace]
        using hroot
    refine ⟨?_, ?_⟩
    · rintro ⟨cerr, hc⟩
      refine ⟨"could not create namespace '%s'", [c.Namespace], ?_⟩
      simp [Execute, huser, Statement.NodeType, handleCreateNamespace,
        Statement.asCreateNamespaceStatement, Run.call, hstore, namespaceAlreadyExists,
        habsent, hr, handleCreateRootNamespace, hadmin, Run.Fail, hc]
    · rintro ⟨n, hc⟩
      simp [Execute, huser, Statement.NodeType, handleCreateNamespace,
        Statement.asCreateNamespaceStatement, Run.call, hstore, namespaceAlreadyExists,
        habsent, hr, handleCreateRootNamespace, hadmin, Run.Success, hc]
  · intro parent seg p hname hseg hparent hauth
    have hr : c.IsRootNamespace = false := IsRootNamespace_of_split c parent seg hname
    have hs := sliceTo_LastIndex_of_split c.Namespace parent seg hname hseg
    have hscan := scanRoles_eq e.system.namespaceMethods p c.RequiredPermissions false
      (user.Roles parent)
    cases hadmin : user.IsAdmin with
    | true =>
      refine ⟨?_, ?_⟩
      · rintro ⟨cerr, hc⟩
        refine ⟨"cannot create namespace '%s'", [c.Namespace], ?_⟩
        simp [Execute, huser, Statement.NodeType, handleCreateNamespace,
          Statement.asCreateNamespaceStatement, Run.call, hstore, namespaceAlreadyExists,
          habsent, hr, hs, hadmin, createChildOf, hparent, Run.Fail, hc]
      · rintro ⟨n, hc⟩
        simp [Execute, huser, Statement.NodeType, handleCreateNamespace,
          Statement.asCreateNamespaceStatement, Run.call, hstore, namespaceAlreadyExists,
          habsent, hr, hs, hadmin, createChildOf, hparent, Run.Success, hc]
    | false =>
      have hgrant : ∃ role ∈ user.Roles parent,
          e.system.namespaceMethods.HasPermission p role c.RequiredPermissions = true := by
        rcases hauth with h | h
        · rw [hadmin] at h; cases h
        · exact h
      have hany : (user.Roles parent).any
          (fun role => e.system.namespaceMethods.HasPermission p role c.RequiredPermissions)
          = true := by
        simpa [List.any_eq_true] using hgrant
      refine ⟨?_, ?_⟩
      · rintro ⟨cerr, hc⟩
        refine ⟨"cannot create namespace '%s'", [c.Namespace], ?_⟩
        simp [Execute, huser, Statement.NodeType, handleCreateNamespace,
          Statement.asCreateNamespaceStatement, Run.call, hstore, namespaceAlreadyExists,
          habsent, hr, hs, hadmin, hparent, hscan, hany, createChildOf, Run.Fail, hc]
      · rintro ⟨n, hc⟩
        simp [Execute, huser, Statement.NodeType, handleCreateNamespace,
          Statement.asCreateNamespaceStatement, Run.call, hstore, namespaceAlreadyExists,
          habsent, hr, hs, hadmin, hparent, hscan, hany, createChildOf, Run.Success, hc]

/-- C14 at a concrete input: the admin issues `CREATE NAMESPACE acme` against
an empty store, whose `Create` succeeds. -/
theorem createNamespace_authorized_outcome_witness :
    (exampleStore []).Get "acme" = .error .ErrNamespaceDoesNotExist
    ∧ (Execute (exampleExecutor (some exampleAdmin) []) [] (.CreateNamespace ⟨"acme"⟩)).w
        = [⟨true, .OK, "namespace created", []⟩] :=
  ⟨rfl,
    ((createNamespace_authorized_outcome (exampleExecutor (some exampleAdmin) []) []
      exampleAdmin (exampleStore []) ⟨"acme"⟩ .ErrNamespaceDoesNotExist rfl rfl rfl).1
      (by decide) rfl).2 ⟨"acme", rfl⟩⟩

/-- C12: creating a child requires the parent to exist.  For every user,
admin included, every `CreateChild(n)` call of a CreateNamespace execution
has `n` equal to the (non-root) namespace of the statement and is made on the
object returned by a successful `store.Get(parent)` of the same execution,
`parent` being the name cut before its last `.`.  Hence, over a store that is
a set of names into which `Create` and `CreateChild` insert, `Execute` on any
statement preserves the invariant that every non-root name of the store has
its parent name in the store. -/
theorem createChild_requires_existing_parent (e : Executor N) (w : ResponseWriter)
    (c : CreateNamespaceStatement) :
    (∀ p n, Call.CreateChild p n ∈ (Execute e w (.CreateNamespace c)).calls →
        n = c.Namespace ∧ c.IsRootNamespace = false
        ∧ ∃ store parent, e.system.Namespaces = .ok store
            ∧ sliceTo c.Namespace (LastIndex c.Namespace) = some parent
            ∧ store.Get parent = .ok p
            ∧ Call.Get parent ∈ (Execute e w (.CreateNamespace c)).calls)
    ∧ (∀ (session : Session) (names : List String)
        (grants : String → String → String → Bool) (w' : ResponseWriter) (stmt : Statement),
        parentClosed names →
        parentClosed
          (storeAfter names (Execute (setExecutor session names grants) w' stmt).calls)) := by
  refine ⟨fun p n hmem => (Execute_createNamespace_calls e w c _ hmem).2 p n rfl, ?_⟩
  intro session names grants w' stmt hclosed n hn parent hparent
  unfold storeAfter at hn ⊢
  rcases List.mem_append.mp hn with hn | hn
  · exact List.mem_append.mpr (Or.inl (hclosed n hn parent hparent))
  · obtain ⟨call, hcall, hkind⟩ := (mem_insertedNames _ n).mp hn
    have hmut : call.isMutation = true := by
      rcases hkind with h | ⟨p, h⟩ <;> rw [h] <;> rfl
    cases stmt with
    | Use u =>
      have := Execute_use_calls_readonly _ _ u call hcall
      rw [hmut] at this; cases this
    | DropNamespace d =>
      cases hu : session.user <;> simp [Execute, setExecutor, hu, Statement.NodeType, Run.Fail]
        at hcall
    | ShowNamespaces sh =>
      cases hu : session.user <;> simp [Execute, setExecutor, hu, Statement.NodeType, Run.Fail]
        at hcall
    | CreateNamespace c' =>
      have hj := Execute_createNamespace_calls _ _ c' call hcall
      rcases hkind with h | ⟨p, h⟩
      · obtain ⟨hname, hroot⟩ := hj.1 n h
        have hnone := sliceTo_LastIndex_of_root c' hroot
        rw [← hname, hparent] at hnone
        cases hnone
      · obtain ⟨hname, _, store, parent', hstore, hsl, hget, _⟩ := hj.2 p n h
        rw [← hname, hparent] at hsl
        cases hsl
        have hst : store = exampleStore names := by
          have : (Except.ok (exampleStore names) : Except Error (NamespaceStore String))
              = .ok store := hstore
          exact (Except.ok.inj this).symm
        subst hst
        have hin : parent ∈ names := by
          by_contra hnot
          simp [exampleStore, hnot] at hget
        exact List.mem_append.mpr (Or.inl hin)

/-- C12 at a concrete input: the store `acme` is parent-closed, and so is
the store after the ordinary user, who may create under `acme`, issues
`CREATE NAMESPACE acme.example`. -/
theorem createChild_requires_existing_parent_witness :
    parentClosed
      (storeAfter ["acme"]
        (Execute (setExecutor ⟨"", some exampleUser⟩ ["acme"] (fun _ _ _ => true)) []
          (.CreateNamespace ⟨"acme.example"⟩)).calls) :=
  (createChild_requires_existing_parent (exampleExecutor none []) [] ⟨"acme"⟩).2
    ⟨"", some exampleUser⟩ ["acme"] (fun _ _ _ => true) [] (.CreateNamespace ⟨"acme.example"⟩)
    (by
      intro n hn parent hparent
      simp only [List.mem_singleton] at hn
      subst hn
      have hnone : sliceTo "acme" (LastIndex "acme") = none := by decide
      rw [hnone] at hparent
      cases hparent)

/-- C19: with `IsRootNamespace()` true exactly when the name has no `.`, the
slice `namespace[:index]` of `handleCreateNamespace` is in bounds: it is only
reached when `IsRootNamespace()` is false, and then
`strings.LastIndex(namespace, ".")` is at least 0 and at most the length, so
the slice is defined; no CreateNamespace execution panics. -/
theorem parent_slice_in_bounds (e : Executor N) (w : ResponseWriter)
    (c : CreateNamespaceStatement) :
    (c.IsRootNamespace = false →
        0 ≤ LastIndex c.Namespace
        ∧ LastIndex c.Namespace < (c.Namespace.data.length : Int)
        ∧ (sliceTo c.Namespace (LastIndex c.Namespace)).isSome = true)
    ∧ (Execute e w (.CreateNamespace c)).panicked = false := by
  refine ⟨fun hroot => ?_, ?_⟩
  · have hmem : '.' ∈ c.name.data := by
      simpa [CreateNamespaceStatement.IsRootNamespace] using hroot
    obtain ⟨parent, hparent⟩ := sliceTo_LastIndex_of_not_root c hroot
    exact ⟨(LastIndexDot_nonneg_iff c.name.data).mpr hmem, LastIndexDot_lt c.name.data,
      by rw [hparent]; rfl⟩
  · cases hu : e.session.user with
    | none => simp [Execute, hu, Run.Fail]
    | some user =>
      obtain ⟨resp, _, hp⟩ := handleCreateNamespace_writes_one (⟨e, w, [], false⟩ : Run N)
        (.CreateNamespace c) user hu
      simpa only [Execute, hu, Statement.NodeType] using hp

/-- C19 at a concrete input: for `acme.example` the index is 4 and the slice
is `acme`. -/
theorem parent_slice_in_bounds_witness :
    (⟨"acme.example"⟩ : CreateNamespaceStatement).IsRootNamespace = false
    ∧ 0 ≤ LastIndex "acme.example"
    ∧ sliceTo "acme.example" (LastIndex "acme.example") = some "acme" :=
  ⟨by decide,
    ((parent_slice_in_bounds (exampleExecutor none []) [] ⟨"acme.example"⟩).1 (by decide)).1,
    by decide⟩

/-- C20: for every session carrying a user and every statement that is a
UseStatement or a CreateNamespaceStatement, `Execute` writes exactly one
response and does not panic, whatever the system, the store and the namespace
objects return; the same holds of each handler, `handleUseStatement`,
`handleCreateNamespace` and `handleCreateRootNamespace`, from any state of
the writer. -/
theorem execute_use_and_create_write_exactly_one (e : Executor N) (w : ResponseWriter)
    (user : User) (stmt : Statement) (huser : e.session.user = some user)
    (hstmt : stmt.NodeType = .UseNamespaceType ∨ stmt.NodeType = .CreateNamespaceType) :
    (∃ resp, (Execute e w stmt).w = w ++ [resp])
    ∧ (Execute e w stmt).w.length = w.length + 1
    ∧ (Execute e w stmt).panicked = false
    ∧ (∀ (r : Run N) (s : Statement), r.e.session.user = some user →
        (handleUseStatement r s).w.length = r.w.length + 1
        ∧ (handleCreateNamespace r s).w.length = r.w.length + 1)
    ∧ (∀ (r : Run N) (c : CreateNamespaceStatement) (store : NamespaceStore N),
        r.e.session.user = some user →
        (handleCreateRootNamespace r c store).w.length = r.w.length + 1) := by
  have hrun : ∃ resp, (Execute e w stmt).w = w ++ [resp]
      ∧ (Execute e w stmt).panicked = false := by
    rcases hstmt with h | h
    · have := handleUseStatement_writes_one (⟨e, w, [], false⟩ : Run N) stmt user huser
      simpa only [Execute, huser, h] using this
    · have := handleCreateNamespace_writes_one (⟨e, w, [], false⟩ : Run N) stmt user huser
      simpa only [Execute, huser, h] using this
  obtain ⟨resp, hw, hp⟩ := hrun
  refine ⟨⟨resp, hw⟩, by rw [hw]; simp, hp, ?_, ?_⟩
  · intro r s hr
    obtain ⟨r1, h1, _⟩ := handleUseStatement_writes_one r s user hr
    obtain ⟨r2, h2, _⟩ := handleCreateNamespace_writes_one r s user hr
    rw [h1, h2]; simp
  · intro r c store hr
    obtain ⟨r1, h1, _⟩ := handleCreateRootNamespace_writes_one r c store user hr
    rw [h1]; simp

/-- C20 at a concrete input: the admin issues `CREATE NAMESPACE acme` while
every lookup of the store fails. -/
theorem execute_use_and_create_write_exactly_one_witness :
    (unreachableExecutor (some exampleAdmin)).session.user = some exampleAdmin
    ∧ (Execute (unreachableExecutor (some exampleAdmin)) [] (.CreateNamespace ⟨"acme"⟩)).w.length
        = 1 :=
  ⟨rfl,
    (execute_use_and_create_write_exactly_one (unreachableExecutor (some exampleAdmin)) []
      exampleAdmin (.CreateNamespace ⟨"acme"⟩) rfl (Or.inr rfl)).2.1⟩

/-- C15: for every namespace path `ns` of the form
`identifier ("." identifier)*`, `ParseStatement` succeeds on `"USE " + ns`,
`"CREATE NAMESPACE " + ns`, `"DROP NAMESPACE " + ns` and `"SHOW NAMESPACES"`,
and returns a UseStatement, a CreateNamespaceStatement and a
DropNamespaceStatement whose name is exactly `ns`, and the empty
ShowNamespacesStatement. -/
theorem ParseStatement_valid_commands (first : String) (rest : List String)
    (hfirst : isIdentifier first = true) (hrest : ∀ seg ∈ rest, isIdentifier seg = true) :
    ParseStatement ("USE " ++ namespacePath first rest)
        = .ok (.Use ⟨namespacePath first rest⟩)
    ∧ ParseStatement ("CREATE NAMESPACE " ++ namespacePath first rest)
        = .ok (.CreateNamespace ⟨namespacePath first rest⟩)
    ∧ ParseStatement ("DROP NAMESPACE " ++ namespacePath first rest)
        = .ok (.DropNamespace ⟨namespacePath first rest⟩)
    ∧ ParseStatement "SHOW NAMESPACES" = .ok (.ShowNamespaces ⟨⟩) := by
  refine ⟨?_, ?_, ?_, by rfl⟩
  · rw [ParseStatement_use _ (namespacePath first rest).data (by simp [String.data_append]),
      parseNamespace_complete first rest _ _ hfirst hrest]
  · rw [ParseStatement_create _ (namespacePath first rest).data (by simp [String.data_append]),
      parseNamespace_complete first rest _ _ hfirst hrest]
  · rw [ParseStatement_drop _ (namespacePath first rest).data (by simp [String.data_append]),
      parseNamespace_complete first rest _ _ hfirst hrest]

/-- C15 at a concrete input: the path `acme.example.dynamite`. -/
theorem ParseStatement_valid_commands_witness :
    namespacePath "acme" ["example", "dynamite"] = "acme.example.dynamite"
    ∧ ParseStatement ("USE " ++ namespacePath "acme" ["example", "dynamite"])
        = .ok (.Use ⟨namespacePath "acme" ["example", "dynamite"]⟩) :=
  ⟨by decide,
    (ParseStatement_valid_commands "acme" ["example", "dynamite"] (by decide)
      (by decide)).1⟩

/-- C16: for every namespace path `ns` of the form
`identifier ("." identifier)*` and every `tail` that is empty or begins with
whitespace, `ParseStatement` on `kw + ns + "." + tail`, for `kw` one of
`"USE "`, `"CREATE NAMESPACE "`, `"DROP NAMESPACE "`, fails with an error that
expects `identifier`, found `EOF` (empty tail) or `WS`, at line 1 and at the
char of the token right after the dot: the dot is at column
`len(kw + ns) + 1` and the error at char `len(kw + ns) + 2`. -/
theorem ParseStatement_dangling_dot (first : String) (rest : List String) (tail kw : String)
    (hfirst : isIdentifier first = true) (hrest : ∀ seg ∈ rest, isIdentifier seg = true)
    (htail : tail.data = [] ∨ ∃ c cs, tail.data = c :: cs ∧ isWhitespace c = true)
    (hkw : kw = "USE " ∨ kw = "CREATE NAMESPACE " ∨ kw = "DROP NAMESPACE ") :
    ∃ e, ParseStatement (kw ++ namespacePath first rest ++ "." ++ tail) = .error e
      ∧ e.expected = "identifier"
      ∧ e.found = (if tail.data = [] then "EOF" else "WS")
      ∧ e.line = 1
      ∧ e.char = (kw ++ namespacePath first rest).length + 2
      ∧ e.tok.offset = (kw ++ namespacePath first rest).length + 1 := by
  have hfound : ∀ t : Token,
      t.kind = (if tail.data = [] then TokenKind.eof else TokenKind.whitespace) →
      tokstr t = (if tail.data = [] then "EOF" else "WS") := by
    intro t ht
    by_cases h : tail.data = []
    · rw [if_pos h] at ht ⊢; simp [tokstr, ht]
    · rw [if_neg h] at ht ⊢; simp [tokstr, ht]
  rcases hkw with h | h | h
  · subst h
    obtain ⟨t, ht, hpos, hoff, hkind⟩ :=
      parseNamespace_dangling first rest tail.data ⟨1, 4⟩ 3 hfirst hrest htail
    refine ⟨⟨t, "identifier"⟩, ?_, rfl, hfound t hkind, ?_, ?_, ?_⟩
    · rw [ParseStatement_use _ ((namespacePath first rest).data ++ '.' :: tail.data)
        (by simp [String.data_append]), ht]
    · simp [ParseError.line, hpos]
    · rw [String_length_append]
      show t.pos.char = _
      rw [hpos]
      simp only [String.data_append, List.length_append, List.length_cons, List.length_nil]
      omega
    · rw [String_length_append, hoff]
      simp only [String.data_append, List.length_append, List.length_cons, List.length_nil]
  · subst h
    obtain ⟨t, ht, hpos, hoff, hkind⟩ :=
      parseNamespace_dangling first rest tail.data ⟨1, 17⟩ 16 hfirst hrest htail
    refine ⟨⟨t, "identifier"⟩, ?_, rfl, hfound t hkind, ?_, ?_, ?_⟩
    · rw [ParseStatement_create _ ((namespacePath first rest).data ++ '.' :: tail.data)
        (by simp [String.data_append]), ht]
    · simp [ParseError.line, hpos]
    · rw [String_length_append]
      show t.pos.char = _
      rw [hpos]
      simp only [String.data_append, List.length_append, List.length_cons, List.length_nil]
      omega
    · rw [String_length_append, hoff]
      simp only [String.data_append, List.length_append, List.length_cons, List.length_nil]
  · subst h
    obtain ⟨t, ht, hpos, hoff, hkind⟩ :=
      parseNamespace_dangling first rest tail.data ⟨1, 15⟩ 14 hfirst hrest htail
    refine ⟨⟨t, "identifier"⟩, ?_, rfl, hfound t hkind, ?_, ?_, ?_⟩
    · rw [ParseStatement_drop _ ((namespacePath first rest).data ++ '.' :: tail.data)
        (by simp [String.data_append]), ht]
    · simp [ParseError.line, hpos]
    · rw [String_length_append]
      show t.pos.char = _
      rw [hpos]
      simp only [String.data_append, List.length_append, List.length_cons, List.length_nil]
      omega
    · rw [String_length_append, hoff]
      simp only [String.data_append, List.length_append, List.length_cons, List.length_nil]

/-- C16 at a concrete input: `USE acme.example.` followed by a space, the
case of `parser_test.go`; the dot is at column 17 and the error at char 18. -/
theorem ParseStatement_dangling_dot_witness :
    ∃ e, ParseStatement ("USE " ++ namespacePath "acme" ["example"] ++ "." ++ " ") = .error e
      ∧ e.expected = "identifier"
      ∧ e.found = (if " ".data = [] then "EOF" else "WS")
      ∧ e.line = 1
      ∧ e.char = ("USE " ++ namespacePath "acme" ["example"]).length + 2
      ∧ e.tok.offset = ("USE " ++ namespacePath "acme" ["example"]).length + 1 :=
  ParseStatement_dangling_dot "acme" ["example"] " " "USE " (by decide) (by decide)
    (Or.inr ⟨' ', [], rfl, by decide⟩) (Or.inl rfl)

/-- C17, as stated, fails: on `USE acme.example. ` (with a trailing space)
the failing token is the whitespace after the dot, whose literal text in the
input is one space, and the error shows it as `WS`: the case
`found WS, expected identifier at line 1, char 18` of `parser_test.go`. -/
theorem whitespace_token_is_found_as_WS :
    ParseStatement "USE acme.example. "
        = .error ⟨⟨.whitespace, " ", ⟨1, 18⟩, 17⟩, "identifier"⟩
    ∧ ParseError.found ⟨⟨.whitespace, " ", ⟨1, 18⟩, 17⟩, "identifier"⟩ = "WS"
    ∧ "WS" ≠ " "
    ∧ errstring (ParseStatement "USE acme.example. ")
        = "found WS, expected identifier at line 1, char 18" :=
  ⟨by rfl, by rfl, by decide, by decide⟩

/-- C17, amended: in every syntax error returned by `ParseStatement`,
`found` is `EOF` when the input is exhausted at the failing token, `WS` when
the failing token is whitespace, and otherwise the literal text of the
failing token as it appears in the input, at the offset of the token. -/
theorem ParseStatement_found (input : String) (e : ParseError)
    (he : ParseStatement input = .error e) :
    (e.tok.offset = input.length ∧ e.tok.kind = .eof ∧ e.found = "EOF")
    ∨ (e.tok.offset < input.length ∧ e.tok.kind = .whitespace ∧ e.found = "WS"
        ∧ ∃ c, (input.data.drop e.tok.offset).head? = some c ∧ isWhitespace c = true)
    ∨ (e.tok.offset < input.length ∧ e.tok.kind ≠ .eof ∧ e.tok.kind ≠ .whitespace
        ∧ e.found = e.tok.lit ∧ e.found.data ≠ []
        ∧ e.found.data <+: input.data.drop e.tok.offset) := by
  obtain ⟨s, hs, htok⟩ := ParseStatement_error input e he
  obtain ⟨hoff, _, hdrop, hlen, heof, hws, hother⟩ := Reachable_token input s hs
  rw [← htok] at hoff heof hws hother
  cases hrest : s.rest with
  | nil =>
    refine Or.inl ⟨?_, heof hrest, ?_⟩
    · rw [hoff, ← hlen, hrest]; rfl
    · simp [ParseError.found, tokstr, heof hrest]
  | cons c cs =>
    have hlt : e.tok.offset < input.length := by
      rw [hoff, ← hlen, hrest]; simp
    cases hw : isWhitespace c with
    | true =>
      refine Or.inr (Or.inl ⟨hlt, hws c cs hrest hw, ?_, c, ?_, hw⟩)
      · simp [ParseError.found, tokstr, hws c cs hrest hw]
      · rw [hoff, hdrop, hrest]; rfl
    | false =>
      obtain ⟨h1, h2, h3, h4⟩ := hother c cs hrest hw
      have hfound : e.found = e.tok.lit := by
        unfold ParseError.found tokstr
        split
        · exact absurd ‹_› h1
        · exact absurd ‹_› h2
        · rfl
      refine Or.inr (Or.inr ⟨hlt, h1, h2, hfound, ?_, ?_⟩)
      · rw [hfound]; exact h3
      · rw [hfound, hoff, hdrop]; exact h4

/-- C17 (amended) at a concrete input: `SHOW NAMESPACE` fails on the token
`NAMESPACE`, the text of the input from offset 5. -/
theorem ParseStatement_found_witness :
    ParseStatement "SHOW NAMESPACE"
        = .error ⟨⟨.keyword .NAMESPACE, "NAMESPACE", ⟨1, 6⟩, 5⟩, "NAMESPACES"⟩
    ∧ ((5 = "SHOW NAMESPACE".length ∧ TokenKind.keyword .NAMESPACE = .eof
          ∧ ParseError.found ⟨⟨.keyword .NAMESPACE, "NAMESPACE", ⟨1, 6⟩, 5⟩, "NAMESPACES"⟩
            = "EOF")
      ∨ (5 < "SHOW NAMESPACE".length ∧ TokenKind.keyword .NAMESPACE = .whitespace
          ∧ ParseError.found ⟨⟨.keyword .NAMESPACE, "NAMESPACE", ⟨1, 6⟩, 5⟩, "NAMESPACES"⟩
            = "WS"
          ∧ ∃ c, ("SHOW NAMESPACE".data.drop 5).head? = some c ∧ isWhitespace c = true)
      ∨ (5 < "SHOW NAMESPACE".length ∧ TokenKind.keyword .NAMESPACE ≠ .eof
          ∧ TokenKind.keyword .NAMESPACE ≠ .whitespace
          ∧ ParseError.found ⟨⟨.keyword .NAMESPACE, "NAMESPACE", ⟨1, 6⟩, 5⟩, "NAMESPACES"⟩
            = "NAMESPACE"
          ∧ (ParseError.found
              ⟨⟨.keyword .NAMESPACE, "NAMESPACE", ⟨1, 6⟩, 5⟩, "NAMESPACES"⟩).data ≠ []
          ∧ (ParseError.found
              ⟨⟨.keyword .NAMESPACE, "NAMESPACE", ⟨1, 6⟩, 5⟩, "NAMESPACES"⟩).data
            <+: "SHOW NAMESPACE".data.drop 5)) :=
  ⟨by rfl,
    ParseStatement_found "SHOW NAMESPACE"
      ⟨⟨.keyword .NAMESPACE, "NAMESPACE", ⟨1, 6⟩, 5⟩, "NAMESPACES"⟩ (by rfl)⟩

/-- C18, as stated, fails: on `USE ` (with a trailing space) the failing
token is the end of the input, which 4 characters precede, and the error is
reported at char 6, not at char `4 + 1`: the case
`found EOF, expected namespace at line 1, char 6` of `parser_test.go`. -/
theorem eof_after_whitespace_is_one_char_further :
    ParseStatement "USE " = .error ⟨⟨.eof, "", ⟨1, 6⟩, 4⟩, "namespace"⟩
    ∧ "USE ".length = 4
    ∧ ParseError.char ⟨⟨.eof, "", ⟨1, 6⟩, 4⟩, "namespace"⟩ = 6
    ∧ errstring (ParseStatement "USE ")
        = "found EOF, expected namespace at line 1, char 6" :=
  ⟨by rfl, by rfl, by rfl, by decide⟩

/-- C18, amended: in every syntax error returned by `ParseStatement` on a
single-line input, the line is 1; when the failing token is not the end of
the input, char is 1 + the number of input characters before the failing
token; when it is the end of the input, char is the length of the input + 1,
and one more when the input ends in whitespace. -/
theorem ParseStatement_position (input : String) (e : ParseError)
    (hline : '\n' ∉ input.data) (he : ParseStatement input = .error e) :
    e.line = 1
    ∧ (e.tok.kind ≠ .eof → e.tok.offset < input.length ∧ e.char = e.tok.offset + 1)
    ∧ (e.tok.kind = .eof → e.tok.offset = input.length
        ∧ e.char = input.length + 1
            + (if endsWithWhitespace input.data = true then 1 else 0)) := by
  obtain ⟨s, hs, htok⟩ := ParseStatement_error input e he
  obtain ⟨hoff, hpos, _, hlen, heof, hws, hother⟩ := Reachable_token input s hs
  obtain ⟨consumed, _, _, hinv⟩ := Reachable_inv input s hs
  obtain ⟨hl, hc⟩ := hinv hline
  rw [← htok] at hoff hpos heof hws hother
  have hchar : e.char = s.pos.char := by simp only [ParseError.char, hpos]
  refine ⟨by simp only [ParseError.line, hpos, hl], ?_, ?_⟩
  · intro hk
    cases hrest : s.rest with
    | nil => exact absurd (heof hrest) hk
    | cons c cs =>
      refine ⟨by rw [hoff, ← hlen, hrest]; simp, ?_⟩
      rw [hchar, hc, hoff, hrest]
      simp
  · intro hk
    cases hrest : s.rest with
    | nil =>
      have hso : s.offset = input.length := by rw [← hlen, hrest]; rfl
      refine ⟨by rw [hoff, hso], ?_⟩
      rw [hchar, hc, hso, hrest]
      simp
    | cons c cs =>
      cases hw : isWhitespace c with
      | true => rw [hws c cs hrest hw] at hk; cases hk
      | false => exact absurd hk (hother c cs hrest hw).1

/-- C18 (amended) at a concrete input: `CREATE NAMESPACE .example` fails on
the dot, which 17 characters precede, at char 18. -/
theorem ParseStatement_position_witness :
    ParseStatement "CREATE NAMESPACE .example"
        = .error ⟨⟨.dot, ".", ⟨1, 18⟩, 17⟩, "namespace"⟩
    ∧ ParseError.line ⟨⟨.dot, ".", ⟨1, 18⟩, 17⟩, "namespace"⟩ = 1
    ∧ (TokenKind.dot ≠ .eof →
        17 < "CREATE NAMESPACE .example".length
        ∧ ParseError.char ⟨⟨.dot, ".", ⟨1, 18⟩, 17⟩, "namespace"⟩ = 17 + 1) :=
  ⟨by rfl,
    (ParseStatement_position "CREATE NAMESPACE .example"
      ⟨⟨.dot, ".", ⟨1, 18⟩, 17⟩, "namespace"⟩ (by decide) (by rfl)).1,
    (ParseStatement_position "CREATE NAMESPACE .example"
      ⟨⟨.dot, ".", ⟨1, 18⟩, 17⟩, "namespace"⟩ (by decide) (by rfl)).2.1⟩

end Kappa
